import Mathlib

/-!
Verification development for the tai-discord-bot repository.

Shallow embedding of the request-processing pipeline:
* `src/middleware/rate-limiter.ts` — lazy token-bucket admission control;
* the response formatter (`formatResponse` / `truncateMessage`);
* the Linear client (`getLinearIssue` identifier parsing, `findLinearUser`,
  `findLinearLabel`, `findLinearProject` name resolution);
* the agent service (`executeTool` for `update_linear_issue`,
  `processAgentRequest` tool loop);
* the context collector (`collectReplyContext` reply-chain walk and merge).

JavaScript numbers used for time and token arithmetic are modelled as exact
rationals (`ℚ`); JavaScript strings are modelled as `String` (for identifier
and name handling) or as `List Char` (for the length/index arithmetic of the
truncation code, mirroring UTF-16 `length`/`slice`/`lastIndexOf` on the ASCII
inputs at issue).  Network calls are modelled by explicit oracle parameters:
a pure function or an `Except`/`Option` value standing for the remote result.
-/

/-! ### Rate limiter (`src/middleware/rate-limiter.ts`) -/

/-- `UserTier` from `src/types.ts`: `'free' | 'premium' | 'admin'`. -/
inductive UserTier where
  | free
  | premium
  | admin
deriving DecidableEq, Repr

/-- `TokenBucket` from `src/types.ts`. -/
structure TokenBucket where
  tokens : ℚ
  lastRefillTime : ℚ
  maxTokens : ℚ
  refillRate : ℚ
deriving DecidableEq, Repr

/-- `RateLimitResult` from `src/types.ts`.  `resetAt` holds the instant
`now + timeUntilRefill` in seconds (the code wraps it in a `Date`). -/
structure RateLimitResult where
  allowed : Bool
  remaining : ℤ
  resetAt : Option ℚ := none
  reason : Option String := none
deriving DecidableEq, Repr

/-- One entry of the `RATE_LIMITS` record in `rate-limiter.ts`. -/
structure RateConfig where
  maxTokens : ℚ
  refillRate : ℚ
deriving DecidableEq, Repr

/-- The `RATE_LIMITS` table: free = 5 burst, 10/60 tokens per second;
premium = 10 burst, 60/60; admin = 100 burst, 1000/60. -/
def RATE_LIMITS : UserTier → RateConfig
  | .free => ⟨5, 10 / 60⟩
  | .premium => ⟨10, 60 / 60⟩
  | .admin => ⟨100, 1000 / 60⟩

/-- `checkRateLimit` from `rate-limiter.ts`, for a single caller.  The module
map entry for the caller is the `Option TokenBucket` argument (`none` = caller
not seen before); the function returns the result together with the bucket
stored back into the map.  `now` is `Date.now() / 1000`. -/
def checkRateLimit (stored : Option TokenBucket) (tier : UserTier) (now : ℚ) :
    RateLimitResult × TokenBucket :=
  let config := RATE_LIMITS tier
  let bucket : TokenBucket :=
    match stored with
    | none =>
        { tokens := config.maxTokens, lastRefillTime := now,
          maxTokens := config.maxTokens, refillRate := config.refillRate }
    | some b =>
        let timePassed := now - b.lastRefillTime
        let tokensToAdd := timePassed * config.refillRate
        { tokens := min config.maxTokens (b.tokens + tokensToAdd),
          lastRefillTime := now,
          maxTokens := config.maxTokens, refillRate := config.refillRate }
  if 1 ≤ bucket.tokens then
    ({ allowed := true, remaining := ⌊bucket.tokens - 1⌋ },
     { bucket with tokens := bucket.tokens - 1 })
  else
    ({ allowed := false, remaining := 0,
       resetAt := some (now + (1 - bucket.tokens) / config.refillRate),
       reason := some "Rate limit exceeded" },
     bucket)

/-- Run a sequence of `checkRateLimit` calls for one caller whose bucket
already exists, threading the stored bucket, and count `allowed = true`
results. -/
def runRateAux (tier : UserTier) : TokenBucket → List ℚ → Nat × TokenBucket
  | b, [] => (0, b)
  | b, t :: ts =>
      let step := checkRateLimit (some b) tier t
      let rest := runRateAux tier step.2 ts
      (rest.1 + (if step.1.allowed then 1 else 0), rest.2)

/-- Run a sequence of `checkRateLimit` calls for a caller first observed at
the first call, counting `allowed = true` results. -/
def runRate (tier : UserTier) : List ℚ → Nat × Option TokenBucket
  | [] => (0, none)
  | t :: ts =>
      let step := checkRateLimit none tier t
      let rest := runRateAux tier step.2 ts
      (rest.1 + (if step.1.allowed then 1 else 0), some rest.2)

/-- The bucket's token count after the lazy refill step of a `checkRateLimit`
call on an existing bucket: elapsed seconds times the tier's refill rate are
added and the sum is capped at the tier's capacity. -/
def refilledTokens (b : TokenBucket) (tier : UserTier) (now : ℚ) : ℚ :=
  min (RATE_LIMITS tier).maxTokens
    (b.tokens + (now - b.lastRefillTime) * (RATE_LIMITS tier).refillRate)

/-! ### Response formatting (`formatResponse` / `truncateMessage`) -/

/-- `true` when the pattern occurs at the head of the remaining text. -/
def charsMatchAt : List Char → List Char → Bool
  | [], _ => true
  | _ :: _, [] => false
  | p :: ps, c :: cs => p == c && charsMatchAt ps cs

/-- Scan for pattern occurrences, keeping the greatest start index `≤ limit`
seen so far (`best`, `-1` when none). -/
def lastIndexOfGo (pat : List Char) (limit : Nat) : List Char → Nat → ℤ → ℤ
  | [], _, best => best
  | c :: cs, i, best =>
      if limit < i then best
      else lastIndexOfGo pat limit cs (i + 1)
        (if charsMatchAt pat (c :: cs) then (i : ℤ) else best)

/-- JavaScript `s.lastIndexOf(pat, fromIdx)` for a non-empty pattern: the
greatest index `≤ fromIdx` at which `pat` starts in `s`, or `-1`. -/
def lastIndexOf (s pat : List Char) (fromIdx : Nat) : ℤ :=
  lastIndexOfGo pat fromIdx s 0 (-1)

/-- `DISCORD_MAX_LENGTH` constant. -/
def DISCORD_MAX_LENGTH : Nat := 2000

/-- The truncation marker appended by `truncateMessage`. -/
def truncationEllipsis : List Char := "\n\n*...message truncated*".toList

/-- `truncateMessage` from the formatter module.  The floating-point
comparisons `break > targetLength * 0.7` and `break > targetLength * 0.5`
compare an integer `break` against a product whose exact value has fractional
part (or, for `0.5`, is a half-integer times an even factor); for every
`targetLength ≤ 1976` occurring here the double-precision product lies
strictly between the same neighbouring integers as the exact value, so the
comparison is modelled exactly by the integer comparison
`10 * break > 7 * targetLength` (resp. `10 * break > 5 * targetLength`). -/
def truncateMessage (content : List Char) (maxLength : Nat) : List Char :=
  let ellipsis := truncationEllipsis
  let targetLength : Nat := maxLength - ellipsis.length
  let paragraphBreak := lastIndexOf content "\n\n".toList targetLength
  if (7 * targetLength : ℤ) < 10 * paragraphBreak then
    content.take paragraphBreak.toNat ++ ellipsis
  else
    let sentenceBreak := lastIndexOf content ". ".toList targetLength
    if (7 * targetLength : ℤ) < 10 * sentenceBreak then
      content.take (sentenceBreak.toNat + 1) ++ ellipsis
    else
      let wordBreak := lastIndexOf content " ".toList targetLength
      if (5 * targetLength : ℤ) < 10 * wordBreak then
        content.take wordBreak.toNat ++ ellipsis
      else
        content.take targetLength ++ ellipsis

/-- `AgentAction` fields used by `formatResponse`. -/
structure AgentActionFmt where
  tool : String
  result : String
  success : Bool
deriving DecidableEq, Repr

/-- The `AgentResponse` shape consumed by `formatResponse` (`content` plus the
optional `actions` array). -/
structure AgentResponseFmt where
  content : List Char
  actions : Option (List AgentActionFmt) := none
deriving DecidableEq, Repr

/-- The per-action line of the `Actions Taken` summary. -/
def actionLine (a : AgentActionFmt) : String :=
  (if a.success then "✅" else "❌") ++ " **" ++ a.tool ++ "**: " ++ a.result

/-- `formatResponse` from the formatter module: append the action summary when
present, then truncate to the Discord limit when over it. -/
def formatResponse (response : AgentResponseFmt) : List Char :=
  let content :=
    match response.actions with
    | some acts =>
        if 0 < acts.length then
          response.content ++
            ("\n\n**Actions Taken:**\n" ++
              String.intercalate "\n" (acts.map actionLine)).toList
        else response.content
    | none => response.content
  if DISCORD_MAX_LENGTH < content.length then
    truncateMessage content DISCORD_MAX_LENGTH
  else content

/-! ### Linear client (`linear-client.ts`): identifier parsing and lookup -/

/-- ASCII letter test for the `[A-Z]+` class under the `i` flag. -/
def isRegexLetter (c : Char) : Bool :=
  ('A' ≤ c && c ≤ 'Z') || ('a' ≤ c && c ≤ 'z')

/-- ASCII digit test for `\d`. -/
def isRegexDigit (c : Char) : Bool :=
  '0' ≤ c && c ≤ '9'

/-- `parseInt(digits, 10)` on a non-empty all-digit string. -/
def digitsToNat (ds : List Char) : Nat :=
  ds.foldl (fun acc c => acc * 10 + (c.toNat - '0'.toNat)) 0

/-- The match `identifier.match(/^([A-Z]+)-(\d+)$/i)` from `getLinearIssue`:
one or more letters, a hyphen, one or more digits, anchored at both ends.
Returns the letter group (as matched, original case) and the parsed number. -/
def parseIdentifier (s : String) : Option (String × Nat) :=
  let cs := s.toList
  let letters := cs.takeWhile isRegexLetter
  let rest := cs.dropWhile isRegexLetter
  match letters, rest with
  | [], _ => none
  | _, '-' :: ds =>
      if ds ≠ [] && ds.all isRegexDigit then
        some (String.mk letters, digitsToNat ds)
      else none
  | _, _ => none

/-- `LinearLabel` (`{ id, name }`) as returned inside issues and by
`getLinearLabels`. -/
structure LinearLabel where
  id : String
  name : String
deriving DecidableEq, Repr

/-- The fields of `LinearIssue` that the update path reads (`id` and the
current label set `labels.nodes`). -/
structure LinearIssue where
  id : String
  identifier : String
  title : String
  labels : List LinearLabel
deriving DecidableEq, Repr

/-- `getLinearIssue`, with the remote GraphQL call abstracted as an oracle
from the filtered issue number to the result list (`Except` = query threw).
Returns the `{success, issue?, error?}` result as an `Except`, paired with
the list of issue numbers that were sent to the remote API (empty when the
identifier was rejected before any call). -/
def getLinearIssue (remote : Nat → Except String (List LinearIssue))
    (identifier : String) : Except String LinearIssue × List Nat :=
  match parseIdentifier identifier with
  | none => (.error ("Invalid identifier format: " ++ identifier), [])
  | some (_, issueNumber) =>
      match remote issueNumber with
      | .error e => (.error e, [issueNumber])
      | .ok [] => (.error "Issue not found", [issueNumber])
      | .ok (issue :: _) => (.ok issue, [issueNumber])

/-! ### Linear client: entity name resolution -/

/-- `LinearUser` (`{ id, name, displayName?, email }`). -/
structure LinearUser where
  id : String
  name : String
  displayName : Option String
  email : String
deriving DecidableEq, Repr

/-- `LinearProject` (`{ id, name, state }`). -/
structure LinearProject where
  id : String
  name : String
  state : String
deriving DecidableEq, Repr

/-- `WorkflowState` entries returned by `getLinearStatuses`. -/
structure LinearStatus where
  id : String
  name : String
deriving DecidableEq, Repr

/-- JavaScript `toLowerCase()`, modelled characterwise (exact on the ASCII
names handled here).  Defined over the character list so that it reduces in
the kernel. -/
def strToLower (s : String) : String :=
  String.mk (s.data.map Char.toLower)

/-- Whitespace for JavaScript `trim()`. -/
def isJsSpace (c : Char) : Bool :=
  c == ' ' || c == '\t' || c == '\n' || c == '\r'

/-- JavaScript `trim()`: strip leading and trailing whitespace. -/
def strTrim (s : String) : String :=
  String.mk (((s.data.dropWhile isJsSpace).reverse.dropWhile isJsSpace).reverse)

/-- JavaScript `a.includes(b)`: substring containment. -/
def strIncludes (s sub : String) : Bool :=
  let cs := s.toList
  (List.range (cs.length + 1)).any fun i => charsMatchAt sub.toList (cs.drop i)

/-- The normalised query `nameQuery.toLowerCase().trim()`. -/
def normalizeQuery (q : String) : String :=
  strTrim (strToLower q)

/-- The exact-match predicate of `findLinearUser` (name, `displayName ?? ''`,
or email equals the normalised query, case-insensitively). -/
def userExact (nameLower : String) (u : LinearUser) : Bool :=
  strToLower u.name == nameLower ||
    strToLower (u.displayName.getD "") == nameLower ||
    strToLower u.email == nameLower

/-- The partial-match predicate of `findLinearUser` (substring containment on
the same three fields). -/
def userPartial (nameLower : String) (u : LinearUser) : Bool :=
  strIncludes (strToLower u.name) nameLower ||
    strIncludes (strToLower (u.displayName.getD "")) nameLower ||
    strIncludes (strToLower u.email) nameLower

/-- The ambiguity error message built by the `find*` helpers. -/
def ambiguousMsg (kind : String) (nameQuery : String) (names : List String) :
    String :=
  "Ambiguous " ++ kind ++ " \"" ++ nameQuery ++ "\" - multiple matches found: " ++
    String.intercalate ", " names ++ ". Please be more specific."

/-- `findLinearUser`: the fetched team-member list is the `Except` argument
(`.error` = `getLinearUsers` failed).  Exact match first, then substring
matching with the one/none/many case split. -/
def findLinearUser (fetched : Except String (List LinearUser))
    (nameQuery : String) : Except String LinearUser :=
  match fetched with
  | .error e => .error e
  | .ok users =>
      let nameLower := normalizeQuery nameQuery
      match users.find? (fun u => userExact nameLower u) with
      | some u => .ok u
      | none =>
          match users.filter (fun u => userPartial nameLower u) with
          | [u] => .ok u
          | [] => .error ("User not found: " ++ nameQuery)
          | us => .error (ambiguousMsg "user" nameQuery (us.map (·.name)))

/-- The exact-match predicate of `findLinearLabel` (name equals the
normalised query, case-insensitively). -/
def labelExact (nameLower : String) (l : LinearLabel) : Bool :=
  strToLower l.name == nameLower

/-- The partial-match predicate of `findLinearLabel`. -/
def labelPartial (nameLower : String) (l : LinearLabel) : Bool :=
  strIncludes (strToLower l.name) nameLower

/-- `findLinearLabel`: same two-phase resolution on the label name only. -/
def findLinearLabel (fetched : Except String (List LinearLabel))
    (nameQuery : String) : Except String LinearLabel :=
  match fetched with
  | .error e => .error e
  | .ok labels =>
      let nameLower := normalizeQuery nameQuery
      match labels.find? (fun l => labelExact nameLower l) with
      | some l => .ok l
      | none =>
          match labels.filter (fun l => labelPartial nameLower l) with
          | [l] => .ok l
          | [] => .error ("Label not found: " ++ nameQuery)
          | ls => .error (ambiguousMsg "label" nameQuery (ls.map (·.name)))

/-- The exact-match predicate of `findLinearProject`. -/
def projectExact (nameLower : String) (p : LinearProject) : Bool :=
  strToLower p.name == nameLower

/-- The partial-match predicate of `findLinearProject`. -/
def projectPartial (nameLower : String) (p : LinearProject) : Bool :=
  strIncludes (strToLower p.name) nameLower

/-- `findLinearProject`: same two-phase resolution on the project name. -/
def findLinearProject (fetched : Except String (List LinearProject))
    (nameQuery : String) : Except String LinearProject :=
  match fetched with
  | .error e => .error e
  | .ok projects =>
      let nameLower := normalizeQuery nameQuery
      match projects.find? (fun p => projectExact nameLower p) with
      | some p => .ok p
      | none =>
          match projects.filter (fun p => projectPartial nameLower p) with
          | [p] => .ok p
          | [] => .error ("Project not found: " ++ nameQuery)
          | ps => .error (ambiguousMsg "project" nameQuery (ps.map (·.name)))

/-! ### `executeTool` for `update_linear_issue` (agent service) -/

/-- The `update_linear_issue` tool input fields. -/
structure UpdateToolInput where
  identifier : String
  status : Option String := none
  priority : Option String := none
  assignee : Option String := none
  labels : Option (List String) := none
  project : Option String := none
  title : Option String := none
  description : Option String := none
deriving DecidableEq, Repr

/-- The argument record passed to `updateLinearIssue` when the update is
submitted to the tracker. -/
structure UpdateSubmission where
  issueId : String
  stateId : Option String := none
  priority : Option String := none
  assigneeId : Option String := none
  labelIds : Option (List String) := none
  projectId : Option String := none
  title : Option String := none
  description : Option String := none
deriving DecidableEq, Repr

/-- The remote reads the update handler performs before mutating, abstracted
as their results: the `getLinearIssue` lookup for the identifier, and the
cached entity lists behind `getLinearStatuses` / `findLinearUser` /
`findLinearLabel` / `findLinearProject` (`.error` = that fetch failed). -/
structure UpdateEnv where
  issueResult : Except String LinearIssue
  statuses : Except String (List LinearStatus)
  users : Except String (List LinearUser)
  labels : Except String (List LinearLabel)
  projects : Except String (List LinearProject)
deriving Repr

/-- The `statusMap` record mapping tool status tokens to workflow-state
names, with the `?? status` fallback. -/
def statusMapName (status : String) : String :=
  match status with
  | "backlog" => "Backlog"
  | "todo" => "Todo"
  | "in_progress" => "In Progress"
  | "done" => "Done"
  | "canceled" => "Canceled"
  | s => s

/-- Insertion into a JavaScript `Set` of strings: append unless present. -/
def insertUnique (l : List String) (x : String) : List String :=
  if l.contains x then l else l ++ [x]

/-- `Array.from(new Set(xs))`: deduplicate keeping first occurrences. -/
def dedupeKeepFirst (xs : List String) : List String :=
  xs.foldl insertUnique []

/-- Status resolution step: `(stateId, errors)`.  Faithful to the source, a
failure of the `getLinearStatuses` fetch itself records no error and leaves
`stateId` unset. -/
def resolveStatus (statuses : Except String (List LinearStatus))
    (status : Option String) : Option String × List String :=
  match status with
  | none => (none, [])
  | some s =>
      match statuses with
      | .error _ => (none, [])
      | .ok sts =>
          let targetStatus := statusMapName s
          match sts.find? (fun st => strToLower st.name == strToLower targetStatus) with
          | some st => (some st.id, [])
          | none => (none, ["Status not found: " ++ s])

/-- Assignee resolution step: `(assigneeId, errors)`. -/
def resolveAssignee (users : Except String (List LinearUser))
    (assignee : Option String) : Option String × List String :=
  match assignee with
  | none => (none, [])
  | some a =>
      match findLinearUser users a with
      | .ok u => (some u.id, [])
      | .error e => (none, [e])

/-- The label-merge loop: starting from the issue's existing label-id set,
resolve each requested name, adding resolved ids to the set and collecting
errors for the rest. -/
def mergeLabels (labelDir : Except String (List LinearLabel)) :
    List String → List String × List String → List String × List String
  | [], acc => acc
  | name :: rest, (ids, errs) =>
      match findLinearLabel labelDir name with
      | .ok l => mergeLabels labelDir rest (insertUnique ids l.id, errs)
      | .error e => mergeLabels labelDir rest (ids, errs ++ [e])

/-- Label resolution step: `(labelIds, errors)`.  Runs only when the tool
input carries a non-empty label list; the resulting id list is the existing
ids (deduplicated, insertion order) extended with the resolved new ids. -/
def resolveLabels (labelDir : Except String (List LinearLabel))
    (issue : LinearIssue) (labels : Option (List String)) :
    Option (List String) × List String :=
  match labels with
  | none => (none, [])
  | some ls =>
      if ls.isEmpty then (none, [])
      else
        let start := dedupeKeepFirst (issue.labels.map (·.id))
        let merged := mergeLabels labelDir ls (start, [])
        (some merged.1, merged.2)

/-- Project resolution step: `(projectId, errors)`. -/
def resolveProject (projects : Except String (List LinearProject))
    (project : Option String) : Option String × List String :=
  match project with
  | none => (none, [])
  | some p =>
      match findLinearProject projects p with
      | .ok pr => (some pr.id, [])
      | .error e => (none, [e])

/-- All resolution errors of one `update_linear_issue` invocation, in the
order the source pushes them (status, assignee, labels, project). -/
def updateResolutionErrors (env : UpdateEnv) (issue : LinearIssue)
    (input : UpdateToolInput) : List String :=
  (resolveStatus env.statuses input.status).2 ++
    (resolveAssignee env.users input.assignee).2 ++
    (resolveLabels env.labels issue input.labels).2 ++
    (resolveProject env.projects input.project).2

/-- The aggregated failure message for a non-empty resolution-error list. -/
def resolutionFailureMsg (errs : List String) : String :=
  "❌ Resolution errors:\n" ++
    String.intercalate "\n" (errs.map (fun e => "• " ++ e))

/-- Outcome of the `update_linear_issue` handler up to the mutation boundary:
either it fails before mutating (issue lookup or resolution), or it submits
an `issueUpdate` mutation with the given arguments. -/
inductive UpdateOutcome where
  | issueNotFound (message : String)
  | resolutionFailure (message : String)
  | submitted (sub : UpdateSubmission)
deriving DecidableEq, Repr

/-- The `update_linear_issue` case of `executeTool`, up to the point where the
`updateLinearIssue` mutation is or is not sent.  Mirrors the source order:
issue lookup, status/assignee/labels/project resolution collecting errors,
return of the aggregated failure when any error was recorded, otherwise the
mutation call with the resolved ids. -/
def executeUpdateTool (env : UpdateEnv) (input : UpdateToolInput) :
    UpdateOutcome :=
  match env.issueResult with
  | .error _ => .issueNotFound ("❌ Issue not found: " ++ input.identifier)
  | .ok issue =>
      let stateId := (resolveStatus env.statuses input.status).1
      let assigneeId := (resolveAssignee env.users input.assignee).1
      let labelIds := (resolveLabels env.labels issue input.labels).1
      let projectId := (resolveProject env.projects input.project).1
      let resolutionErrors := updateResolutionErrors env issue input
      if resolutionErrors.isEmpty then
        .submitted
          { issueId := issue.id, stateId := stateId,
            priority := input.priority, assigneeId := assigneeId,
            labelIds := labelIds, projectId := projectId,
            title := input.title, description := input.description }
      else .resolutionFailure (resolutionFailureMsg resolutionErrors)

/-! ### Agent orchestration loop (`processAgentRequest`) -/

/-- `ContextMessage` from `src/types.ts`. -/
structure CtxMsg where
  role : String
  content : String
  author : Option String := none
  timestamp : Option String := none
deriving DecidableEq, Repr

/-- `response.usage` token counts. -/
structure UsageInfo where
  input_tokens : Nat
  output_tokens : Nat
deriving DecidableEq, Repr

/-- Model content blocks: plain text or a tool-use request.  The structured
tool arguments are modelled as a string/string association list. -/
inductive ContentBlock where
  | text (text : String)
  | toolUse (id : String) (name : String) (input : List (String × String))
deriving DecidableEq, Repr

/-- A `tool_result` block sent back to the model. -/
structure ToolResultBlock where
  tool_use_id : String
  content : String
  is_error : Bool
deriving DecidableEq, Repr

/-- The content of one message sent to the model. -/
inductive MessageContent where
  | ofText (s : String)
  | ofBlocks (blocks : List ContentBlock)
  | ofToolResults (results : List ToolResultBlock)
deriving DecidableEq, Repr

/-- One entry of the `messages` array. -/
structure MessageParam where
  role : String
  content : MessageContent
deriving DecidableEq, Repr

/-- One response of `anthropic.messages.create`. -/
structure ModelResponse where
  stop_reason : String
  content : List ContentBlock
  usage : UsageInfo
deriving DecidableEq, Repr

/-- `AgentRequest` of the agent service. -/
structure AgentRequestA where
  content : String
  context : List CtxMsg
  username : String
  channel : String
  tier : UserTier
deriving DecidableEq, Repr

/-- Extract the tool-use blocks (`response.content.filter(block.type ===
'tool_use')`). -/
def toolUseOf : ContentBlock → Option (String × String × List (String × String))
  | .toolUse id name input => some (id, name, input)
  | .text _ => none

/-- `response.content.find(block.type === 'text')`, projected to its text. -/
def firstTextBlock : List ContentBlock → Option String
  | [] => none
  | .text t :: _ => some t
  | .toolUse _ _ _ :: rest => firstTextBlock rest

/-- The `while (response.stop_reason === 'tool_use' && iterations < 5)` loop.
`fuel` is the number of remaining permitted iterations (`5 - iterations`);
the model provider and `executeTool` are oracle parameters.  Returns the
final response, the number of iterations executed, and the token usage
accumulated by the calls made inside the loop. -/
def agentLoop (model : List MessageParam → ModelResponse)
    (exec : String → List (String × String) → String × Bool) :
    Nat → List MessageParam → ModelResponse → ModelResponse × Nat × Nat
  | 0, _, response => (response, 0, 0)
  | fuel + 1, messages, response =>
      if response.stop_reason = "tool_use" then
        let toolUses := response.content.filterMap toolUseOf
        let toolResults := toolUses.map fun tu =>
          let er := exec tu.2.1 tu.2.2
          ToolResultBlock.mk tu.1 er.1 (!er.2)
        let messages' := messages ++
          [⟨"assistant", .ofBlocks response.content⟩,
           ⟨"user", .ofToolResults toolResults⟩]
        let response' := model messages'
        let rest := agentLoop model exec fuel messages' response'
        (rest.1, rest.2.1 + 1,
         rest.2.2 + response'.usage.input_tokens + response'.usage.output_tokens)
      else (response, 0, 0)

/-- Context assembly inside `processAgentRequest`: the last 10 context
messages, skipping empty-after-trim contents. -/
def buildContextMessages (ctx : List CtxMsg) : List MessageParam :=
  ((ctx.drop (ctx.length - 10)).filter fun m => !(strTrim m.content == "")).map
    fun m => ⟨if m.role == "user" then "user" else "assistant", .ofText m.content⟩

/-- The fallback answer when the final response has no text block. -/
def NO_RESPONSE_FALLBACK : String := "I processed your request but have no response."

/-- `processAgentRequest`, reduced to its pure orchestration content: returns
the response `content` string together with the loop iteration count and the
total token usage.  Wall-clock timing is not modelled; the tier-gated tool
catalog only changes what the model may request and is part of the model
oracle here.  The transport `catch` branch (apology message) is outside this
pure fragment. -/
def processAgentCore (model : List MessageParam → ModelResponse)
    (exec : String → List (String × String) → String × Bool)
    (request : AgentRequestA) : String × Nat × Nat :=
  if strTrim request.content = "" then ("Please provide a message.", 0, 0)
  else
    let messages := buildContextMessages request.context ++
      [⟨"user", .ofText request.content⟩]
    let response := model messages
    let firstTokens := response.usage.input_tokens + response.usage.output_tokens
    let final := agentLoop model exec 5 messages response
    match firstTextBlock final.1.content with
    | some t => (t, final.2.1, firstTokens + final.2.2)
    | none => (NO_RESPONSE_FALLBACK, final.2.1, firstTokens + final.2.2)

/-- The `AgentResponse.content` field produced by `processAgentRequest`. -/
def processAgentRequest (model : List MessageParam → ModelResponse)
    (exec : String → List (String × String) → String × Bool)
    (request : AgentRequestA) : String :=
  (processAgentCore model exec request).1

/-! ### Context collector (`collectReplyContext`) -/

/-- The Discord message fields consumed by the collector. -/
structure DMsg where
  id : Nat
  author : String
  bot : Bool
  timestamp : String
  content : String
  reference : Option Nat
deriving DecidableEq, Repr

/-- `messageToContext` from `src/types.ts`, restricted to plain content (no
embeds): role from `author.bot`, the author's username, and the ISO
timestamp. -/
def messageToContext (m : DMsg) : CtxMsg :=
  { role := if m.bot then "assistant" else "user",
    content := m.content,
    author := some m.author,
    timestamp := some m.timestamp }

/-- The reply-chain walk (`while (current?.reference && depth < 5)`): fetch
the referenced message through the `store` oracle (`none` = fetch throws,
terminating the walk), `unshift` its context entry, continue from it.  The
result is oldest-first; `fuel` is `5 - depth`. -/
def walkReplyChain (store : Nat → Option DMsg) : Nat → DMsg → List CtxMsg
  | 0, _ => []
  | fuel + 1, current =>
      match current.reference with
      | none => []
      | some messageId =>
          match store messageId with
          | none => []
          | some referenced =>
              walkReplyChain store fuel referenced ++ [messageToContext referenced]

/-- The merge step of `collectReplyContext` in
`src/services/context-collector.ts`: a `Set` of the reply chain's timestamps
is built and channel entries whose timestamp is in the set are dropped. -/
def mergeReplyTs (replyChain channelContext : List CtxMsg) : List CtxMsg :=
  replyChain ++ channelContext.filter fun m =>
    !(replyChain.any fun r => r.timestamp == m.timestamp)

/-- JavaScript template interpolation of a possibly-undefined value. -/
def jsShow : Option String → String
  | none => "undefined"
  | some s => s

/-- The composite key `` `${m.author}:${m.timestamp}` `` used by the
`collectReplyContext` variant in the second collector module. -/
def ctxKey (m : CtxMsg) : String :=
  jsShow m.author ++ ":" ++ jsShow m.timestamp

/-- The merge step of the second `collectReplyContext` variant: channel
entries whose author/timestamp composite key already appears in the reply
chain are dropped. -/
def mergeReplyKey (replyChain channelContext : List CtxMsg) : List CtxMsg :=
  replyChain ++ channelContext.filter fun m =>
    !(replyChain.any fun r => ctxKey r == ctxKey m)

/-- `collectReplyContext` (context-collector.ts variant): walk the reply
chain from `message`, then merge with the channel transcript (an oracle
argument, as `collectContext` is a remote fetch). -/
def collectReplyContextTs (store : Nat → Option DMsg) (message : DMsg)
    (channelContext : List CtxMsg) : List CtxMsg :=
  mergeReplyTs (walkReplyChain store 5 message) channelContext

/-- `collectReplyContext` (second variant, composite author:timestamp key). -/
def collectReplyContextKey (store : Nat → Option DMsg) (message : DMsg)
    (channelContext : List CtxMsg) : List CtxMsg :=
  mergeReplyKey (walkReplyChain store 5 message) channelContext

/-- The 2500-character reply body used to exercise the sentence-break branch
of `truncateMessage`: 1976 `'a'`s, then `". "` starting exactly at index
1976, then 522 more `'a'`s. -/
def overflowContent : List Char :=
  List.replicate 1976 'a' ++ ['.', ' '] ++ List.replicate 522 'a'

/-- Concrete team-member directory used to exercise `findLinearUser`. -/
def resolutionUsers : List LinearUser :=
  [⟨"u1", "Jordan", some "jordy", "jordan@x.com"⟩,
   ⟨"u2", "Joanna", none, "joanna@x.com"⟩]

/-- Concrete label directory used to exercise `findLinearLabel`. -/
def resolutionLabels : List LinearLabel :=
  [⟨"l1", "Backend"⟩, ⟨"l2", "Frontend"⟩]

/-- Concrete project directory used to exercise `findLinearProject`. -/
def resolutionProjects : List LinearProject :=
  [⟨"p1", "TAI v1", "started"⟩, ⟨"p2", "TAI v2", "planned"⟩]

/-- The ids of the label names that resolve successfully, in request order
(the "resolved new label ids" of the additive-update contract). -/
def resolvedLabelIds (labelDir : Except String (List LinearLabel))
    (ls : List String) : List String :=
  ls.filterMap fun name =>
    match findLinearLabel labelDir name with
    | .ok l => some l.id
    | .error _ => none

/-- An issue currently carrying labels `{A, B}`. -/
def issueAB : LinearIssue :=
  ⟨"iss1", "COD-7", "Title", [⟨"idA", "A"⟩, ⟨"idB", "B"⟩]⟩

/-- A label directory with labels `A`, `B`, `C`. -/
def labelDirABC : List LinearLabel :=
  [⟨"idA", "A"⟩, ⟨"idB", "B"⟩, ⟨"idC", "C"⟩]

/-- An update environment in which every read succeeds. -/
def updateEnvOk : UpdateEnv :=
  ⟨.ok issueAB, .ok [⟨"st1", "Done"⟩], .ok [], .ok labelDirABC, .ok []⟩

/-- A tool input requesting the addition of labels `{B, C}`. -/
def updateInputBC : UpdateToolInput :=
  { identifier := "COD-7", labels := some ["B", "C"] }

/-- An update environment in which the workflow-status list fetch fails. -/
def statusFetchEnv : UpdateEnv :=
  ⟨.ok issueAB, .error "Failed to fetch statuses", .ok [], .ok labelDirABC,
   .ok []⟩

/-- A tool input requesting a status change together with a title change. -/
def statusTitleInput : UpdateToolInput :=
  { identifier := "COD-7", status := some "done", title := some "New title" }

/-- A tool input whose assignee and label both fail to resolve. -/
def resolutionFailInput : UpdateToolInput :=
  { identifier := "COD-7", assignee := some "Zed", labels := some ["Zee"] }

/-- A model oracle that always requests another tool call, with a non-empty
leading text block. -/
def toolOnlyModel : List MessageParam → ModelResponse := fun _ =>
  { stop_reason := "tool_use",
    content := [.text "working on it", .toolUse "tu1" "list_linear_users" []],
    usage := ⟨1, 1⟩ }

/-- A model oracle that always requests another tool call and emits an EMPTY
text block first. -/
def emptyTextToolModel : List MessageParam → ModelResponse := fun _ =>
  { stop_reason := "tool_use",
    content := [.text "", .toolUse "tu1" "list_linear_users" []],
    usage := ⟨1, 1⟩ }

/-- A trivial `executeTool` oracle. -/
def trivialExec : String → List (String × String) → String × Bool :=
  fun _ _ => ("ok", true)

/-- A plain agent request with non-empty content. -/
def helloRequest : AgentRequestA :=
  ⟨"hello", [], "user", "general", .premium⟩

/-- A message store holding one fetchable message authored by alice at
timestamp `t1`. -/
def replyStoreCE : Nat → Option DMsg := fun n =>
  if n = 0 then some ⟨0, "alice", false, "t1", "hello", none⟩ else none

/-- A message by bob replying to alice's message. -/
def replyMsgCE : DMsg := ⟨1, "bob", false, "t2", "question", some 0⟩

/-- A channel transcript whose only entry is by carol but shares alice's
timestamp `t1`. -/
def channelCE : List CtxMsg := [⟨"user", "unrelated", some "carol", some "t1"⟩]

/-! ## Theorems -/

/-! ### Rate limiter lemmas -/

theorem checkRateLimit_some_eq (b : TokenBucket) (tier : UserTier) (now : ℚ) :
    checkRateLimit (some b) tier now =
      (if 1 ≤ min (RATE_LIMITS tier).maxTokens
            (b.tokens + (now - b.lastRefillTime) * (RATE_LIMITS tier).refillRate) then
        ({ allowed := true,
           remaining := ⌊min (RATE_LIMITS tier).maxTokens
             (b.tokens + (now - b.lastRefillTime) * (RATE_LIMITS tier).refillRate) - 1⌋ },
         { tokens := min (RATE_LIMITS tier).maxTokens
             (b.tokens + (now - b.lastRefillTime) * (RATE_LIMITS tier).refillRate) - 1,
           lastRefillTime := now,
           maxTokens := (RATE_LIMITS tier).maxTokens,
           refillRate := (RATE_LIMITS tier).refillRate })
      else
        ({ allowed := false, remaining := 0,
           resetAt := some (now + (1 - min (RATE_LIMITS tier).maxTokens
             (b.tokens + (now - b.lastRefillTime) * (RATE_LIMITS tier).refillRate)) /
               (RATE_LIMITS tier).refillRate),
           reason := some "Rate limit exceeded" },
         { tokens := min (RATE_LIMITS tier).maxTokens
             (b.tokens + (now - b.lastRefillTime) * (RATE_LIMITS tier).refillRate),
           lastRefillTime := now,
           maxTokens := (RATE_LIMITS tier).maxTokens,
           refillRate := (RATE_LIMITS tier).refillRate })) := rfl

theorem RATE_LIMITS_refillRate_pos (tier : UserTier) :
    0 < (RATE_LIMITS tier).refillRate := by
  cases tier <;> norm_num [RATE_LIMITS]

theorem RATE_LIMITS_one_le_maxTokens (tier : UserTier) :
    (1 : ℚ) ≤ (RATE_LIMITS tier).maxTokens := by
  cases tier <;> norm_num [RATE_LIMITS]

theorem checkRateLimit_some_pos (b : TokenBucket) (tier : UserTier) (now : ℚ)
    (h1 : (1 : ℚ) ≤ min (RATE_LIMITS tier).maxTokens
      (b.tokens + (now - b.lastRefillTime) * (RATE_LIMITS tier).refillRate)) :
    checkRateLimit (some b) tier now =
      ({ allowed := true,
         remaining := ⌊min (RATE_LIMITS tier).maxTokens
           (b.tokens + (now - b.lastRefillTime) * (RATE_LIMITS tier).refillRate) - 1⌋ },
       { tokens := min (RATE_LIMITS tier).maxTokens
           (b.tokens + (now - b.lastRefillTime) * (RATE_LIMITS tier).refillRate) - 1,
         lastRefillTime := now,
         maxTokens := (RATE_LIMITS tier).maxTokens,
         refillRate := (RATE_LIMITS tier).refillRate }) := by
  rw [checkRateLimit_some_eq]
  exact if_pos h1

theorem checkRateLimit_some_neg (b : TokenBucket) (tier : UserTier) (now : ℚ)
    (h1 : ¬ (1 : ℚ) ≤ min (RATE_LIMITS tier).maxTokens
      (b.tokens + (now - b.lastRefillTime) * (RATE_LIMITS tier).refillRate)) :
    checkRateLimit (some b) tier now =
      ({ allowed := false, remaining := 0,
         resetAt := some (now + (1 - min (RATE_LIMITS tier).maxTokens
           (b.tokens + (now - b.lastRefillTime) * (RATE_LIMITS tier).refillRate)) /
             (RATE_LIMITS tier).refillRate),
         reason := some "Rate limit exceeded" },
       { tokens := min (RATE_LIMITS tier).maxTokens
           (b.tokens + (now - b.lastRefillTime) * (RATE_LIMITS tier).refillRate),
         lastRefillTime := now,
         maxTokens := (RATE_LIMITS tier).maxTokens,
         refillRate := (RATE_LIMITS tier).refillRate }) := by
  rw [checkRateLimit_some_eq]
  exact if_neg h1

theorem runRateAux_bound (tier : UserTier) (ts : List ℚ) :
    ∀ b : TokenBucket, 0 ≤ b.tokens →
      List.Chain (· ≤ ·) b.lastRefillTime ts →
      0 ≤ (runRateAux tier b ts).2.tokens ∧
      ((runRateAux tier b ts).1 : ℚ) + (runRateAux tier b ts).2.tokens ≤
        b.tokens + (ts.getLastD b.lastRefillTime - b.lastRefillTime) *
          (RATE_LIMITS tier).refillRate := by
  induction ts with
  | nil =>
      intro b h0 _
      simp [runRateAux]
      exact h0
  | cons t ts ih =>
      intro b h0 hchain
      rcases List.chain_cons.mp hchain with ⟨hle, hchain'⟩
      have hrate : (0 : ℚ) ≤ (RATE_LIMITS tier).refillRate :=
        (RATE_LIMITS_refillRate_pos tier).le
      have hcap : (0 : ℚ) ≤ (RATE_LIMITS tier).maxTokens :=
        le_trans zero_le_one (RATE_LIMITS_one_le_maxTokens tier)
      have hrefill_le :
          min (RATE_LIMITS tier).maxTokens
              (b.tokens + (t - b.lastRefillTime) * (RATE_LIMITS tier).refillRate) ≤
            b.tokens + (t - b.lastRefillTime) * (RATE_LIMITS tier).refillRate :=
        min_le_right _ _
      have hrefill_nonneg :
          (0 : ℚ) ≤ min (RATE_LIMITS tier).maxTokens
              (b.tokens + (t - b.lastRefillTime) * (RATE_LIMITS tier).refillRate) :=
        le_min hcap
          (add_nonneg h0 (mul_nonneg (sub_nonneg.mpr hle) hrate))
      have hsplit : (t - b.lastRefillTime) * (RATE_LIMITS tier).refillRate +
          (ts.getLastD t - t) * (RATE_LIMITS tier).refillRate =
            (ts.getLastD t - b.lastRefillTime) * (RATE_LIMITS tier).refillRate := by
        ring
      simp only [runRateAux]
      by_cases h1 : (1 : ℚ) ≤ min (RATE_LIMITS tier).maxTokens
          (b.tokens + (t - b.lastRefillTime) * (RATE_LIMITS tier).refillRate)
      · rw [checkRateLimit_some_pos b tier t h1]
        dsimp only
        rw [if_pos rfl]
        have hstep := ih
          { tokens := min (RATE_LIMITS tier).maxTokens
              (b.tokens + (t - b.lastRefillTime) * (RATE_LIMITS tier).refillRate) - 1,
            lastRefillTime := t,
            maxTokens := (RATE_LIMITS tier).maxTokens,
            refillRate := (RATE_LIMITS tier).refillRate }
          (sub_nonneg.mpr h1) hchain'
        rcases hstep with ⟨hf0, hfb⟩
        refine ⟨hf0, ?_⟩
        simp only [List.getLastD_cons]
        push_cast
        simp only at hfb
        linarith
      · rw [checkRateLimit_some_neg b tier t h1]
        dsimp only
        rw [if_neg Bool.false_ne_true]
        have hstep := ih
          { tokens := min (RATE_LIMITS tier).maxTokens
              (b.tokens + (t - b.lastRefillTime) * (RATE_LIMITS tier).refillRate),
            lastRefillTime := t,
            maxTokens := (RATE_LIMITS tier).maxTokens,
            refillRate := (RATE_LIMITS tier).refillRate }
          hrefill_nonneg hchain'
        rcases hstep with ⟨hf0, hfb⟩
        refine ⟨hf0, ?_⟩
        simp only [List.getLastD_cons]
        push_cast
        simp only at hfb
        linarith

theorem checkRateLimit_none_eq (tier : UserTier) (now : ℚ) :
    checkRateLimit none tier now =
      ({ allowed := true, remaining := ⌊(RATE_LIMITS tier).maxTokens - 1⌋ },
       { tokens := (RATE_LIMITS tier).maxTokens - 1, lastRefillTime := now,
         maxTokens := (RATE_LIMITS tier).maxTokens,
         refillRate := (RATE_LIMITS tier).refillRate }) := by
  simp only [checkRateLimit]
  exact if_pos (RATE_LIMITS_one_le_maxTokens tier)

/-- C1 (amended).  First conjunct, as claimed: after any `checkRateLimit`
call — whatever the stored bucket, tier, and instant — the stored token count
never exceeds the capacity recorded in the bucket (the current tier's
`maxTokens`).  Second conjunct, burst bound with the window condition
corrected: for a fixed tier and a caller first seen at `t0`, over any
sequence of calls at nondecreasing instants during which less than one
token's worth of refill elapses (`(tLast - t0) * refillRate < 1`), the number
of `allowed = true` results never exceeds the capacity.  (The claim's
original window — fewer than `capacity` seconds of refill — suffices for the
free tier, whose `capacity * refillRate = 5/6 < 1`, but not in general; see
the counterexample.) -/
theorem rateLimiter_capacity_invariant_and_burst_bound :
    (∀ (stored : Option TokenBucket) (tier : UserTier) (now : ℚ),
        ((checkRateLimit stored tier now).2).tokens ≤
          ((checkRateLimit stored tier now).2).maxTokens) ∧
    (∀ (tier : UserTier) (t0 : ℚ) (ts : List ℚ),
        List.Chain (· ≤ ·) t0 ts →
        (ts.getLastD t0 - t0) * (RATE_LIMITS tier).refillRate < 1 →
        ((runRate tier (t0 :: ts)).1 : ℚ) ≤ (RATE_LIMITS tier).maxTokens) := by
  constructor
  · intro stored tier now
    cases stored with
    | none =>
        rw [checkRateLimit_none_eq]
        dsimp only
        linarith [RATE_LIMITS_one_le_maxTokens tier]
    | some b =>
        by_cases h1 : (1 : ℚ) ≤ min (RATE_LIMITS tier).maxTokens
            (b.tokens + (now - b.lastRefillTime) * (RATE_LIMITS tier).refillRate)
        · rw [checkRateLimit_some_pos b tier now h1]
          dsimp only
          have hmin := min_le_left (RATE_LIMITS tier).maxTokens
            (b.tokens + (now - b.lastRefillTime) * (RATE_LIMITS tier).refillRate)
          linarith
        · rw [checkRateLimit_some_neg b tier now h1]
          dsimp only
          exact min_le_left _ _
  · intro tier t0 ts hchain hwin
    simp only [runRate]
    rw [checkRateLimit_none_eq]
    dsimp only
    rw [if_pos rfl]
    have hstep := runRateAux_bound tier ts
      { tokens := (RATE_LIMITS tier).maxTokens - 1, lastRefillTime := t0,
        maxTokens := (RATE_LIMITS tier).maxTokens,
        refillRate := (RATE_LIMITS tier).refillRate }
      (sub_nonneg.mpr (RATE_LIMITS_one_le_maxTokens tier)) hchain
    rcases hstep with ⟨hf0, hfb⟩
    simp only at hf0 hfb
    push_cast
    have hk : ((runRateAux tier
        { tokens := (RATE_LIMITS tier).maxTokens - 1, lastRefillTime := t0,
          maxTokens := (RATE_LIMITS tier).maxTokens,
          refillRate := (RATE_LIMITS tier).refillRate } ts).1 : ℚ) <
        (RATE_LIMITS tier).maxTokens := by
      linarith
    rcases tier with _ | _ | _
    · norm_num [RATE_LIMITS] at hk ⊢
      exact_mod_cast Nat.succ_le_of_lt (by exact_mod_cast hk)
    · norm_num [RATE_LIMITS] at hk ⊢
      exact_mod_cast Nat.succ_le_of_lt (by exact_mod_cast hk)
    · norm_num [RATE_LIMITS] at hk ⊢
      exact_mod_cast Nat.succ_le_of_lt (by exact_mod_cast hk)

/-- C1 counterexample: for the premium tier (capacity 10, 1 token per
second), a fresh caller making ten calls at `t = 0` and one at `t = 1` gets
11 `allowed = true` results.  The interval spans 1 second — fewer than
`capacity = 10` seconds of refill — yet the allowed count exceeds the
capacity, refuting the claim's burst bound as stated. -/
theorem rateLimiter_burst_counterexample :
    (runRate .premium [0, 0, 0, 0, 0, 0, 0, 0, 0, 0, 1]).1 = 11 ∧
    (RATE_LIMITS .premium).maxTokens = 10 ∧
    ((1 : ℚ) - 0) < (RATE_LIMITS .premium).maxTokens ∧
    ¬ ((runRate .premium [0, 0, 0, 0, 0, 0, 0, 0, 0, 0, 1]).1 : ℚ) ≤
        (RATE_LIMITS .premium).maxTokens := by
  refine ⟨?_, by norm_num [RATE_LIMITS], by norm_num [RATE_LIMITS], ?_⟩ <;>
    norm_num [runRate, runRateAux, checkRateLimit, RATE_LIMITS, min_def]

theorem rateLimiter_capacity_invariant_and_burst_bound_witness :
    ((checkRateLimit (some ⟨7, 0, 5, 10 / 60⟩) .free 2).2).tokens ≤
      ((checkRateLimit (some ⟨7, 0, 5, 10 / 60⟩) .free 2).2).maxTokens ∧
    ((runRate .free [0, 1, 2]).1 : ℚ) ≤ (RATE_LIMITS .free).maxTokens := by
  refine ⟨rateLimiter_capacity_invariant_and_burst_bound.1
      (some ⟨7, 0, 5, 10 / 60⟩) .free 2,
    rateLimiter_capacity_invariant_and_burst_bound.2 .free 0 [1, 2] ?_ ?_⟩
  · norm_num [List.chain_cons]
  · norm_num [RATE_LIMITS]

/-- C2: a `checkRateLimit` call for a known caller first refills (elapsed
seconds times `refillRate`, capped at `maxTokens`) and stamps
`lastRefillTime := now`; then, if at least one token is available, it deducts
exactly one token and answers `allowed = true` with `remaining` the floor of
the post-deduction count; otherwise it answers `allowed = false` with
`resetAt = now + (1 - tokens) / refillRate`. -/
theorem checkRateLimit_known_caller_spec (b : TokenBucket) (tier : UserTier)
    (now : ℚ) :
    ((checkRateLimit (some b) tier now).2).lastRefillTime = now ∧
    ((1 : ℚ) ≤ refilledTokens b tier now →
      (checkRateLimit (some b) tier now).1 =
        { allowed := true, remaining := ⌊refilledTokens b tier now - 1⌋ } ∧
      ((checkRateLimit (some b) tier now).2).tokens =
        refilledTokens b tier now - 1) ∧
    (refilledTokens b tier now < 1 →
      (checkRateLimit (some b) tier now).1 =
        { allowed := false, remaining := 0,
          resetAt := some (now + (1 - refilledTokens b tier now) /
            (RATE_LIMITS tier).refillRate),
          reason := some "Rate limit exceeded" } ∧
      ((checkRateLimit (some b) tier now).2).tokens =
        refilledTokens b tier now) := by
  refine ⟨?_, fun h1 => ?_, fun h2 => ?_⟩
  · by_cases h : (1 : ℚ) ≤ min (RATE_LIMITS tier).maxTokens
        (b.tokens + (now - b.lastRefillTime) * (RATE_LIMITS tier).refillRate)
    · rw [checkRateLimit_some_pos b tier now h]
    · rw [checkRateLimit_some_neg b tier now h]
  · rw [checkRateLimit_some_pos b tier now h1]
    exact ⟨rfl, rfl⟩
  · rw [checkRateLimit_some_neg b tier now (not_le.mpr h2)]
    exact ⟨rfl, rfl⟩

theorem checkRateLimit_known_caller_spec_witness :
    (checkRateLimit (some ⟨2, 0, 5, 10 / 60⟩) .free 3).1 =
      { allowed := true, remaining := 1 } ∧
    (checkRateLimit (some ⟨1 / 2, 0, 5, 10 / 60⟩) .free 1).1 =
      { allowed := false, remaining := 0, resetAt := some 3,
        reason := some "Rate limit exceeded" } := by
  have h1 := (checkRateLimit_known_caller_spec ⟨2, 0, 5, 10 / 60⟩ .free 3).2.1
    (by norm_num [refilledTokens, RATE_LIMITS, min_def])
  have h2 := (checkRateLimit_known_caller_spec ⟨1 / 2, 0, 5, 10 / 60⟩ .free 1).2.2
    (by norm_num [refilledTokens, RATE_LIMITS, min_def])
  constructor
  · rw [h1.1]
    norm_num [refilledTokens, RATE_LIMITS, min_def]
  · rw [h2.1]
    norm_num [refilledTokens, RATE_LIMITS, min_def]

/-- C10: a denied `checkRateLimit` call consumes no quota.  On the denial
branch the stored bucket's `tokens` field is exactly the post-refill value
(no deduction); only `lastRefillTime` and the tier-derived `maxTokens` /
`refillRate` fields are rewritten; under monotone time and an in-range
starting count the stored count does not decrease; and any later call on the
post-denial bucket with the same tier behaves identically to the same call
made on the pre-denial bucket — the denial is invisible. -/
theorem checkRateLimit_denied_frame (b : TokenBucket) (tier : UserTier)
    (now : ℚ)
    (hdenied : (checkRateLimit (some b) tier now).1.allowed = false) :
    ((checkRateLimit (some b) tier now).2).tokens = refilledTokens b tier now ∧
    ((checkRateLimit (some b) tier now).2).lastRefillTime = now ∧
    ((checkRateLimit (some b) tier now).2).maxTokens =
      (RATE_LIMITS tier).maxTokens ∧
    ((checkRateLimit (some b) tier now).2).refillRate =
      (RATE_LIMITS tier).refillRate ∧
    (b.lastRefillTime ≤ now → b.tokens ≤ (RATE_LIMITS tier).maxTokens →
      b.tokens ≤ ((checkRateLimit (some b) tier now).2).tokens) ∧
    ∀ t' : ℚ,
      checkRateLimit (some ((checkRateLimit (some b) tier now).2)) tier t' =
        checkRateLimit (some b) tier t' := by
  have h1 : ¬ (1 : ℚ) ≤ min (RATE_LIMITS tier).maxTokens
      (b.tokens + (now - b.lastRefillTime) * (RATE_LIMITS tier).refillRate) := by
    intro hcon
    rw [checkRateLimit_some_pos b tier now hcon] at hdenied
    simp at hdenied
  have hmin_eq : min (RATE_LIMITS tier).maxTokens
      (b.tokens + (now - b.lastRefillTime) * (RATE_LIMITS tier).refillRate) =
      b.tokens + (now - b.lastRefillTime) * (RATE_LIMITS tier).refillRate := by
    rcases min_cases (RATE_LIMITS tier).maxTokens
        (b.tokens + (now - b.lastRefillTime) * (RATE_LIMITS tier).refillRate) with
      ⟨heq, hcmp⟩ | ⟨heq, hcmp⟩
    · exfalso
      have hlt : min (RATE_LIMITS tier).maxTokens
          (b.tokens + (now - b.lastRefillTime) * (RATE_LIMITS tier).refillRate) < 1 :=
        not_le.mp h1
      rw [heq] at hlt
      exact absurd hlt (not_lt.mpr (RATE_LIMITS_one_le_maxTokens tier))
    · exact heq
  rw [checkRateLimit_some_neg b tier now h1]
  dsimp only
  refine ⟨rfl, rfl, rfl, rfl, fun hta htb => ?_, fun t' => ?_⟩
  · exact le_min htb
      (le_add_of_nonneg_right (mul_nonneg (sub_nonneg.mpr hta)
        (RATE_LIMITS_refillRate_pos tier).le))
  · rw [checkRateLimit_some_eq, checkRateLimit_some_eq]
    dsimp only
    have hinner : min (RATE_LIMITS tier).maxTokens
          (b.tokens + (now - b.lastRefillTime) * (RATE_LIMITS tier).refillRate) +
        (t' - now) * (RATE_LIMITS tier).refillRate =
          b.tokens + (t' - b.lastRefillTime) * (RATE_LIMITS tier).refillRate := by
      rw [hmin_eq]
      ring
    rw [hinner]

theorem checkRateLimit_denied_frame_witness :
    ((checkRateLimit (some ⟨1 / 2, 0, 5, 10 / 60⟩) .free 1).2).tokens = 2 / 3 ∧
    checkRateLimit
        (some ((checkRateLimit (some ⟨1 / 2, 0, 5, 10 / 60⟩) .free 1).2))
        .free 7 =
      checkRateLimit (some ⟨1 / 2, 0, 5, 10 / 60⟩) .free 7 := by
  have h := checkRateLimit_denied_frame ⟨1 / 2, 0, 5, 10 / 60⟩ .free 1
    (by norm_num [checkRateLimit, RATE_LIMITS, min_def])
  refine ⟨?_, h.2.2.2.2.2 7⟩
  rw [h.1]
  norm_num [refilledTokens, RATE_LIMITS, min_def]

/-! ### Truncation lemmas -/

theorem lastIndexOfGo_past (pat : List Char) (limit : Nat) :
    ∀ (s : List Char) (i : Nat) (best : ℤ), limit < i →
      lastIndexOfGo pat limit s i best = best := by
  intro s
  cases s with
  | nil => intro i best _; rfl
  | cons d ds =>
      intro i best h
      simp only [lastIndexOfGo, if_pos h]

theorem lastIndexOfGo_head_not_mem (c : Char) (pat : List Char) (limit : Nat) :
    ∀ (s : List Char) (i : Nat) (best : ℤ), c ∉ s →
      lastIndexOfGo (c :: pat) limit s i best = best := by
  intro s
  induction s with
  | nil => intro i best _; rfl
  | cons d ds ih =>
      intro i best hmem
      rw [List.mem_cons] at hmem
      push_neg at hmem
      by_cases hlim : limit < i
      · simp only [lastIndexOfGo, if_pos hlim]
      · simp only [lastIndexOfGo, if_neg hlim]
        rw [if_neg (show ¬ charsMatchAt (c :: pat) (d :: ds) = true by
          simp [charsMatchAt, hmem.1])]
        exact ih (i + 1) best hmem.2

theorem lastIndexOf_head_not_mem (s : List Char) (c : Char) (pat : List Char)
    (fromIdx : Nat) (h : c ∉ s) : lastIndexOf s (c :: pat) fromIdx = -1 :=
  lastIndexOfGo_head_not_mem c pat fromIdx s 0 (-1) h

theorem lastIndexOfGo_match_at_limit (pat : List Char) (limit : Nat) :
    ∀ (s : List Char) (i : Nat) (best : ℤ), i ≤ limit →
      charsMatchAt pat (s.drop (limit - i)) = true →
      limit - i < s.length →
      lastIndexOfGo pat limit s i best = limit := by
  intro s
  induction s with
  | nil =>
      intro i best _ _ hlen
      simp at hlen
  | cons d ds ih =>
      intro i best hi hmatch hlen
      simp only [lastIndexOfGo, if_neg (not_lt.mpr hi)]
      by_cases heq : i = limit
      · subst heq
        rw [Nat.sub_self, List.drop_zero] at hmatch
        rw [if_pos hmatch]
        exact lastIndexOfGo_past pat i ds (i + 1) i (Nat.lt_succ_self i)
      · have hlt : i < limit := lt_of_le_of_ne hi heq
        have hsub : limit - i = (limit - (i + 1)) + 1 := by omega
        rw [hsub, List.drop_succ_cons] at hmatch
        have hlen' : limit - (i + 1) < ds.length := by
          simp only [List.length_cons] at hlen
          omega
        exact ih (i + 1) _ (by omega) hmatch hlen'

theorem lastIndexOf_match_at (s pat : List Char) (limit : Nat)
    (hmatch : charsMatchAt pat (s.drop limit) = true)
    (hlen : limit < s.length) : lastIndexOf s pat limit = limit := by
  refine lastIndexOfGo_match_at_limit pat limit s 0 (-1) (Nat.zero_le _) ?_ ?_
  · simpa using hmatch
  · simpa using hlen

theorem truncateMessage_2000_eq (content : List Char) :
    truncateMessage content 2000 =
      if (13832 : ℤ) < 10 * lastIndexOf content ['\n', '\n'] 1976 then
        content.take (lastIndexOf content ['\n', '\n'] 1976).toNat ++
          truncationEllipsis
      else if (13832 : ℤ) < 10 * lastIndexOf content ['.', ' '] 1976 then
        content.take ((lastIndexOf content ['.', ' '] 1976).toNat + 1) ++
          truncationEllipsis
      else if (9880 : ℤ) < 10 * lastIndexOf content [' '] 1976 then
        content.take (lastIndexOf content [' '] 1976).toNat ++
          truncationEllipsis
      else content.take 1976 ++ truncationEllipsis := rfl

/-- C8 (code bug): on a 2500-character body consisting of 1976 `'a'`s, the
two characters `". "`, and 522 more `'a'`s, `formatResponse` returns 2001
characters — one more than the 2000-character Discord limit the code's own
`DISCORD_MAX_LENGTH` constant and doc comment promise.  The sentence-break
branch finds `". "` starting exactly at `targetLength = 1976` (JavaScript's
`lastIndexOf(searchString, fromIndex)` admits a match starting at
`fromIndex`), slices `sentenceBreak + 1 = 1977` characters and appends the
24-character marker. -/
theorem formatResponse_sentence_branch_overflow :
    (formatResponse { content := overflowContent }).length = 2001 ∧
    DISCORD_MAX_LENGTH < (formatResponse { content := overflowContent }).length ∧
    overflowContent.length = 2500 := by
  have hlen2500 : overflowContent.length = 2500 := by
    simp only [overflowContent, List.length_append, List.length_replicate,
      List.length_cons, List.length_nil]
  have hE : truncationEllipsis.length = 24 := rfl
  have hnoNl : '\n' ∉ overflowContent := by
    intro hmem
    rcases List.mem_append.mp hmem with h' | h'
    · rcases List.mem_append.mp h' with h'' | h''
      · exact absurd (List.eq_of_mem_replicate h'') (by decide)
      · simp only [List.mem_cons, List.mem_singleton] at h''
        rcases h'' with h3 | h3 | h3 <;> revert h3 <;> decide
    · exact absurd (List.eq_of_mem_replicate h') (by decide)
  have hfr : formatResponse { content := overflowContent } =
      truncateMessage overflowContent 2000 := by
    simp only [formatResponse]
    rw [if_pos (by rw [hlen2500]; norm_num [DISCORD_MAX_LENGTH])]
    rfl
  have hpb : lastIndexOf overflowContent ['\n', '\n'] 1976 = -1 :=
    lastIndexOf_head_not_mem _ '\n' ['\n'] 1976 hnoNl
  have hsb : lastIndexOf overflowContent ['.', ' '] 1976 = 1976 := by
    refine lastIndexOf_match_at _ _ 1976 ?_ (by rw [hlen2500]; norm_num)
    have h76 : (List.replicate 1976 'a').length = 1976 :=
      List.length_replicate 1976 'a'
    have hdrop : overflowContent.drop 1976 =
        ['.', ' '] ++ List.replicate 522 'a' := by
      calc overflowContent.drop 1976 =
            (List.replicate 1976 'a' ++
              (['.', ' '] ++ List.replicate 522 'a')).drop
                (List.replicate 1976 'a').length := by
              rw [h76, overflowContent, List.append_assoc]
        _ = ['.', ' '] ++ List.replicate 522 'a' := List.drop_left _ _
    rw [hdrop]
    simp [charsMatchAt]
  have hres : formatResponse { content := overflowContent } =
      overflowContent.take 1977 ++ truncationEllipsis := by
    rw [hfr, truncateMessage_2000_eq, hpb, hsb]
    rw [if_neg (by norm_num), if_pos (by norm_num)]
    have h77 : (1976 : ℤ).toNat + 1 = 1977 := by decide
    rw [h77]
  refine ⟨?_, ?_, hlen2500⟩ <;>
    rw [hres] <;>
    simp [List.length_append, List.length_take, hlen2500, hE, DISCORD_MAX_LENGTH]

/-! ### Identifier parsing -/

/-- C9: `getLinearIssue` parses the human identifier before any remote call.
`"COD-379"` is split into prefix group `"COD"` and issue number 379, and one
query filtered on that number is issued regardless of the remote's answer;
the hyphen-less `"cod379"` fails the anchored letters-hyphen-digits pattern,
so the call returns the invalid-identifier-format error and sends no query at
all. -/
theorem getLinearIssue_parses_before_remote :
    parseIdentifier "COD-379" = some ("COD", 379) ∧
    (∀ remote : Nat → Except String (List LinearIssue),
        (getLinearIssue remote "COD-379").2 = [379]) ∧
    (∀ remote : Nat → Except String (List LinearIssue),
        getLinearIssue remote "cod379" =
          (.error "Invalid identifier format: cod379", [])) := by
  have hp : parseIdentifier "COD-379" = some ("COD", 379) := by decide
  have hq : parseIdentifier "cod379" = none := by decide
  refine ⟨hp, fun remote => ?_, fun remote => ?_⟩
  · simp only [getLinearIssue, hp]
    cases remote 379 with
    | error e => rfl
    | ok issues => cases issues <;> rfl
  · simp only [getLinearIssue, hq]
    rfl

theorem getLinearIssue_parses_before_remote_witness :
    (getLinearIssue (fun _ => .ok []) "COD-379").2 = [379] ∧
    getLinearIssue (fun _ => .ok []) "cod379" =
      (.error "Invalid identifier format: cod379", []) :=
  ⟨getLinearIssue_parses_before_remote.2.1 (fun _ => .ok []),
   getLinearIssue_parses_before_remote.2.2 (fun _ => .ok [])⟩

/-! ### Entity-resolution lemmas -/

theorem charsMatchAt_self : ∀ l : List Char, charsMatchAt l l = true := by
  intro l
  induction l with
  | nil => rfl
  | cons c cs ih => simp [charsMatchAt, ih]

theorem strIncludes_self (s : String) : strIncludes s s = true := by
  simp only [strIncludes]
  refine List.any_eq_true.mpr ⟨0, List.mem_range.mpr (Nat.succ_pos _), ?_⟩
  rw [List.drop_zero]
  exact charsMatchAt_self _

theorem strIncludes_of_beq {a b : String} (h : (a == b) = true) :
    strIncludes a b = true := by
  rw [show a = b from by simpa using h]
  exact strIncludes_self b

theorem strIncludes_of_eq {a b : String} (h : a = b) :
    strIncludes a b = true := by
  rw [h]
  exact strIncludes_self b

theorem userPartial_of_userExact (n : String) (u : LinearUser)
    (h : userExact n u = true) : userPartial n u = true := by
  simp only [userExact, Bool.or_eq_true, beq_iff_eq] at h
  simp only [userPartial, Bool.or_eq_true]
  rcases h with (h | h) | h
  · exact Or.inl (Or.inl (strIncludes_of_eq h))
  · exact Or.inl (Or.inr (strIncludes_of_eq h))
  · exact Or.inr (strIncludes_of_eq h)

theorem labelPartial_of_labelExact (n : String) (l : LinearLabel)
    (h : labelExact n l = true) : labelPartial n l = true :=
  strIncludes_of_beq h

theorem projectPartial_of_projectExact (n : String) (p : LinearProject)
    (h : projectExact n p = true) : projectPartial n p = true :=
  strIncludes_of_beq h

theorem two_mem_length_le {α : Type} (l : List α) (a b : α)
    (ha : a ∈ l) (hb : b ∈ l) (hne : a ≠ b) : 2 ≤ l.length := by
  cases l with
  | nil => simp at ha
  | cons x xs =>
      cases xs with
      | nil =>
          simp only [List.mem_singleton] at ha hb
          exact absurd (ha.trans hb.symm) hne
      | cons y ys => simp [List.length_cons]

/-- C3: name resolution is two-phase for each entity kind (users, labels,
projects).  An exact case-insensitive match on the trimmed, case-folded
query is returned whenever one exists — even when substring matches also
exist; with no exact match and no substring match the result is the
not-found failure; with no exact match and two or more distinct substring
matches the result is the ambiguous failure whose message lists every
colliding candidate name (a list of length at least 2). -/
theorem findLinear_two_phase_resolution :
    (∀ (users : List LinearUser) (q : String),
        (∃ u ∈ users, userExact (normalizeQuery q) u = true) →
        ∃ u, findLinearUser (.ok users) q = .ok u ∧
          userExact (normalizeQuery q) u = true) ∧
    (∀ (users : List LinearUser) (q : String),
        (∀ u ∈ users, userPartial (normalizeQuery q) u = false) →
        findLinearUser (.ok users) q = .error ("User not found: " ++ q)) ∧
    (∀ (users : List LinearUser) (q : String) (u₁ u₂ : LinearUser),
        u₁ ∈ users → u₂ ∈ users → u₁ ≠ u₂ →
        (∀ u ∈ users, userExact (normalizeQuery q) u = false) →
        userPartial (normalizeQuery q) u₁ = true →
        userPartial (normalizeQuery q) u₂ = true →
        2 ≤ (users.filter (fun v => userPartial (normalizeQuery q) v)).length ∧
        findLinearUser (.ok users) q = .error (ambiguousMsg "user" q
          ((users.filter (fun v => userPartial (normalizeQuery q) v)).map
            (·.name)))) ∧
    (∀ (labels : List LinearLabel) (q : String),
        (∃ l ∈ labels, labelExact (normalizeQuery q) l = true) →
        ∃ l, findLinearLabel (.ok labels) q = .ok l ∧
          labelExact (normalizeQuery q) l = true) ∧
    (∀ (labels : List LinearLabel) (q : String),
        (∀ l ∈ labels, labelPartial (normalizeQuery q) l = false) →
        findLinearLabel (.ok labels) q = .error ("Label not found: " ++ q)) ∧
    (∀ (labels : List LinearLabel) (q : String) (l₁ l₂ : LinearLabel),
        l₁ ∈ labels → l₂ ∈ labels → l₁ ≠ l₂ →
        (∀ l ∈ labels, labelExact (normalizeQuery q) l = false) →
        labelPartial (normalizeQuery q) l₁ = true →
        labelPartial (normalizeQuery q) l₂ = true →
        2 ≤ (labels.filter (fun v => labelPartial (normalizeQuery q) v)).length ∧
        findLinearLabel (.ok labels) q = .error (ambiguousMsg "label" q
          ((labels.filter (fun v => labelPartial (normalizeQuery q) v)).map
            (·.name)))) ∧
    (∀ (projects : List LinearProject) (q : String),
        (∃ p ∈ projects, projectExact (normalizeQuery q) p = true) →
        ∃ p, findLinearProject (.ok projects) q = .ok p ∧
          projectExact (normalizeQuery q) p = true) ∧
    (∀ (projects : List LinearProject) (q : String),
        (∀ p ∈ projects, projectPartial (normalizeQuery q) p = false) →
        findLinearProject (.ok projects) q =
          .error ("Project not found: " ++ q)) ∧
    (∀ (projects : List LinearProject) (q : String) (p₁ p₂ : LinearProject),
        p₁ ∈ projects → p₂ ∈ projects → p₁ ≠ p₂ →
        (∀ p ∈ projects, projectExact (normalizeQuery q) p = false) →
        projectPartial (normalizeQuery q) p₁ = true →
        projectPartial (normalizeQuery q) p₂ = true →
        2 ≤ (projects.filter
          (fun v => projectPartial (normalizeQuery q) v)).length ∧
        findLinearProject (.ok projects) q = .error (ambiguousMsg "project" q
          ((projects.filter (fun v => projectPartial (normalizeQuery q) v)).map
            (·.name)))) := by
  refine ⟨?_, ?_, ?_, ?_, ?_, ?_, ?_, ?_, ?_⟩
  · intro users q hex
    obtain ⟨u, humem, hu⟩ := hex
    cases hfind : users.find? (fun v => userExact (normalizeQuery q) v) with
    | none => exact absurd hu (by simpa using List.find?_eq_none.mp hfind u humem)
    | some v =>
        exact ⟨v, by simp only [findLinearUser, hfind], List.find?_some hfind⟩
  · intro users q hall
    have hfind : users.find? (fun v => userExact (normalizeQuery q) v) = none := by
      rw [List.find?_eq_none]
      intro x hx hcon
      have hp := userPartial_of_userExact (normalizeQuery q) x hcon
      rw [hall x hx] at hp
      exact Bool.false_ne_true hp
    have hfilter : users.filter (fun v => userPartial (normalizeQuery q) v) = [] := by
      rw [List.filter_eq_nil]
      intro x hx
      simp [hall x hx]
    simp only [findLinearUser, hfind, hfilter]
  · intro users q u₁ u₂ h1 h2 hne hall hp1 hp2
    have hfind : users.find? (fun v => userExact (normalizeQuery q) v) = none := by
      rw [List.find?_eq_none]
      intro x hx
      simp [hall x hx]
    have hm1 : u₁ ∈ users.filter (fun v => userPartial (normalizeQuery q) v) :=
      List.mem_filter.mpr ⟨h1, hp1⟩
    have hm2 : u₂ ∈ users.filter (fun v => userPartial (normalizeQuery q) v) :=
      List.mem_filter.mpr ⟨h2, hp2⟩
    have hlen := two_mem_length_le _ u₁ u₂ hm1 hm2 hne
    refine ⟨hlen, ?_⟩
    obtain ⟨x, xs, hxs⟩ : ∃ x xs,
        users.filter (fun v => userPartial (normalizeQuery q) v) = x :: xs := by
      cases hf : users.filter (fun v => userPartial (normalizeQuery q) v) with
      | nil => rw [hf] at hlen; simp at hlen
      | cons a as => exact ⟨a, as, rfl⟩
    obtain ⟨y, ys, hys⟩ : ∃ y ys, xs = y :: ys := by
      cases hx2 : xs with
      | nil => rw [hxs, hx2] at hlen; simp at hlen
      | cons b bs => exact ⟨b, bs, rfl⟩
    rw [hys] at hxs
    simp only [findLinearUser, hfind, hxs]
  · intro labels q hex
    obtain ⟨l, hlmem, hl⟩ := hex
    cases hfind : labels.find? (fun v => labelExact (normalizeQuery q) v) with
    | none => exact absurd hl (by simpa using List.find?_eq_none.mp hfind l hlmem)
    | some v =>
        exact ⟨v, by simp only [findLinearLabel, hfind], List.find?_some hfind⟩
  · intro labels q hall
    have hfind : labels.find? (fun v => labelExact (normalizeQuery q) v) = none := by
      rw [List.find?_eq_none]
      intro x hx hcon
      have hp := labelPartial_of_labelExact (normalizeQuery q) x hcon
      rw [hall x hx] at hp
      exact Bool.false_ne_true hp
    have hfilter : labels.filter (fun v => labelPartial (normalizeQuery q) v) = [] := by
      rw [List.filter_eq_nil]
      intro x hx
      simp [hall x hx]
    simp only [findLinearLabel, hfind, hfilter]
  · intro labels q l₁ l₂ h1 h2 hne hall hp1 hp2
    have hfind : labels.find? (fun v => labelExact (normalizeQuery q) v) = none := by
      rw [List.find?_eq_none]
      intro x hx
      simp [hall x hx]
    have hm1 : l₁ ∈ labels.filter (fun v => labelPartial (normalizeQuery q) v) :=
      List.mem_filter.mpr ⟨h1, hp1⟩
    have hm2 : l₂ ∈ labels.filter (fun v => labelPartial (normalizeQuery q) v) :=
      List.mem_filter.mpr ⟨h2, hp2⟩
    have hlen := two_mem_length_le _ l₁ l₂ hm1 hm2 hne
    refine ⟨hlen, ?_⟩
    obtain ⟨x, xs, hxs⟩ : ∃ x xs,
        labels.filter (fun v => labelPartial (normalizeQuery q) v) = x :: xs := by
      cases hf : labels.filter (fun v => labelPartial (normalizeQuery q) v) with
      | nil => rw [hf] at hlen; simp at hlen
      | cons a as => exact ⟨a, as, rfl⟩
    obtain ⟨y, ys, hys⟩ : ∃ y ys, xs = y :: ys := by
      cases hx2 : xs with
      | nil => rw [hxs, hx2] at hlen; simp at hlen
      | cons b bs => exact ⟨b, bs, rfl⟩
    rw [hys] at hxs
    simp only [findLinearLabel, hfind, hxs]
  · intro projects q hex
    obtain ⟨p, hpmem, hp⟩ := hex
    cases hfind : projects.find? (fun v => projectExact (normalizeQuery q) v) with
    | none => exact absurd hp (by simpa using List.find?_eq_none.mp hfind p hpmem)
    | some v =>
        exact ⟨v, by simp only [findLinearProject, hfind], List.find?_some hfind⟩
  · intro projects q hall
    have hfind : projects.find? (fun v => projectExact (normalizeQuery q) v) = none := by
      rw [List.find?_eq_none]
      intro x hx hcon
      have hp := projectPartial_of_projectExact (normalizeQuery q) x hcon
      rw [hall x hx] at hp
      exact Bool.false_ne_true hp
    have hfilter : projects.filter (fun v => projectPartial (normalizeQuery q) v) = [] := by
      rw [List.filter_eq_nil]
      intro x hx
      simp [hall x hx]
    simp only [findLinearProject, hfind, hfilter]
  · intro projects q p₁ p₂ h1 h2 hne hall hp1 hp2
    have hfind : projects.find? (fun v => projectExact (normalizeQuery q) v) = none := by
      rw [List.find?_eq_none]
      intro x hx
      simp [hall x hx]
    have hm1 : p₁ ∈ projects.filter (fun v => projectPartial (normalizeQuery q) v) :=
      List.mem_filter.mpr ⟨h1, hp1⟩
    have hm2 : p₂ ∈ projects.filter (fun v => projectPartial (normalizeQuery q) v) :=
      List.mem_filter.mpr ⟨h2, hp2⟩
    have hlen := two_mem_length_le _ p₁ p₂ hm1 hm2 hne
    refine ⟨hlen, ?_⟩
    obtain ⟨x, xs, hxs⟩ : ∃ x xs,
        projects.filter (fun v => projectPartial (normalizeQuery q) v) = x :: xs := by
      cases hf : projects.filter (fun v => projectPartial (normalizeQuery q) v) with
      | nil => rw [hf] at hlen; simp at hlen
      | cons a as => exact ⟨a, as, rfl⟩
    obtain ⟨y, ys, hys⟩ : ∃ y ys, xs = y :: ys := by
      cases hx2 : xs with
      | nil => rw [hxs, hx2] at hlen; simp at hlen
      | cons b bs => exact ⟨b, bs, rfl⟩
    rw [hys] at hxs
    simp only [findLinearProject, hfind, hxs]

theorem findLinear_two_phase_resolution_witness :
    (∃ u, findLinearUser (.ok resolutionUsers) "Jordan" = .ok u ∧
        userExact (normalizeQuery "Jordan") u = true) ∧
    findLinearUser (.ok resolutionUsers) "Zed" =
      .error ("User not found: " ++ "Zed") ∧
    (2 ≤ (resolutionUsers.filter
        (fun v => userPartial (normalizeQuery "Jo") v)).length ∧
      findLinearUser (.ok resolutionUsers) "Jo" = .error (ambiguousMsg "user"
        "Jo" ((resolutionUsers.filter
          (fun v => userPartial (normalizeQuery "Jo") v)).map (·.name)))) ∧
    (∃ l, findLinearLabel (.ok resolutionLabels) "backend" = .ok l ∧
        labelExact (normalizeQuery "backend") l = true) ∧
    findLinearLabel (.ok resolutionLabels) "xyz" =
      .error ("Label not found: " ++ "xyz") ∧
    (2 ≤ (resolutionLabels.filter
        (fun v => labelPartial (normalizeQuery "end") v)).length ∧
      findLinearLabel (.ok resolutionLabels) "end" = .error (ambiguousMsg
        "label" "end" ((resolutionLabels.filter
          (fun v => labelPartial (normalizeQuery "end") v)).map (·.name)))) ∧
    (∃ p, findLinearProject (.ok resolutionProjects) "TAI v1" = .ok p ∧
        projectExact (normalizeQuery "TAI v1") p = true) ∧
    findLinearProject (.ok resolutionProjects) "zzz" =
      .error ("Project not found: " ++ "zzz") ∧
    (2 ≤ (resolutionProjects.filter
        (fun v => projectPartial (normalizeQuery "TAI") v)).length ∧
      findLinearProject (.ok resolutionProjects) "TAI" = .error (ambiguousMsg
        "project" "TAI" ((resolutionProjects.filter
          (fun v => projectPartial (normalizeQuery "TAI") v)).map (·.name)))) := by
  refine ⟨?_, ?_, ?_, ?_, ?_, ?_, ?_, ?_, ?_⟩
  · exact findLinear_two_phase_resolution.1 resolutionUsers "Jordan" (by decide)
  · exact findLinear_two_phase_resolution.2.1 resolutionUsers "Zed" (by decide)
  · exact findLinear_two_phase_resolution.2.2.1 resolutionUsers "Jo"
      ⟨"u1", "Jordan", some "jordy", "jordan@x.com"⟩
      ⟨"u2", "Joanna", none, "joanna@x.com"⟩
      (by decide) (by decide) (by decide) (by decide) (by decide) (by decide)
  · exact findLinear_two_phase_resolution.2.2.2.1 resolutionLabels "backend"
      (by decide)
  · exact findLinear_two_phase_resolution.2.2.2.2.1 resolutionLabels "xyz"
      (by decide)
  · exact findLinear_two_phase_resolution.2.2.2.2.2.1 resolutionLabels "end"
      ⟨"l1", "Backend"⟩ ⟨"l2", "Frontend"⟩
      (by decide) (by decide) (by decide) (by decide) (by decide) (by decide)
  · exact findLinear_two_phase_resolution.2.2.2.2.2.2.1 resolutionProjects
      "TAI v1" (by decide)
  · exact findLinear_two_phase_resolution.2.2.2.2.2.2.2.1 resolutionProjects
      "zzz" (by decide)
  · exact findLinear_two_phase_resolution.2.2.2.2.2.2.2.2 resolutionProjects
      "TAI" ⟨"p1", "TAI v1", "started"⟩ ⟨"p2", "TAI v2", "planned"⟩
      (by decide) (by decide) (by decide) (by decide) (by decide) (by decide)

/-! ### Additive-label-update lemmas -/

theorem insertUnique_toFinset (l : List String) (x : String) :
    (insertUnique l x).toFinset = insert x l.toFinset := by
  unfold insertUnique
  split_ifs with h
  · have hx : x ∈ l := by simpa using h
    exact (Finset.insert_eq_self.mpr (List.mem_toFinset.mpr hx)).symm
  · simp [List.toFinset_append, Finset.insert_eq, Finset.union_comm]

theorem foldl_insertUnique_toFinset (xs : List String) :
    ∀ acc : List String,
      (xs.foldl insertUnique acc).toFinset = acc.toFinset ∪ xs.toFinset := by
  induction xs with
  | nil => intro acc; simp
  | cons x xs ih =>
      intro acc
      simp only [List.foldl_cons, ih, insertUnique_toFinset, List.toFinset_cons,
        Finset.insert_union, Finset.union_insert]

theorem dedupeKeepFirst_toFinset (xs : List String) :
    (dedupeKeepFirst xs).toFinset = xs.toFinset := by
  simp [dedupeKeepFirst, foldl_insertUnique_toFinset]

theorem mergeLabels_resolved (dir : Except String (List LinearLabel))
    (ls : List String)
    (hres : ∀ name ∈ ls, ∃ l, findLinearLabel dir name = .ok l) :
    ∀ ids errs : List String,
      (mergeLabels dir ls (ids, errs)).2 = errs ∧
      (mergeLabels dir ls (ids, errs)).1.toFinset =
        ids.toFinset ∪ (resolvedLabelIds dir ls).toFinset := by
  induction ls with
  | nil => intro ids errs; simp [mergeLabels, resolvedLabelIds]
  | cons name rest ih =>
      intro ids errs
      obtain ⟨l, hl⟩ := hres name (List.mem_cons_self name rest)
      have hres' : ∀ n ∈ rest, ∃ l, findLinearLabel dir n = .ok l :=
        fun n hn => hres n (List.mem_cons_of_mem name hn)
      have hmerge : mergeLabels dir (name :: rest) (ids, errs) =
          mergeLabels dir rest (insertUnique ids l.id, errs) := by
        simp [mergeLabels, hl]
      have hresolved : resolvedLabelIds dir (name :: rest) =
          l.id :: resolvedLabelIds dir rest := by
        simp [resolvedLabelIds, List.filterMap_cons, hl]
      rcases ih hres' (insertUnique ids l.id) errs with ⟨he, hf⟩
      refine ⟨by rw [hmerge, he], ?_⟩
      rw [hmerge, hf, insertUnique_toFinset, hresolved, List.toFinset_cons,
        Finset.insert_union, Finset.union_insert]

/-- C4: when `update_linear_issue` requests label additions and every
requested label name resolves, the label-id list handed to the
`updateLinearIssue` mutation is, as a set, exactly the union of the issue's
current label ids with the resolved new label ids — never a bare
replacement. -/
theorem updateTool_labels_additive (env : UpdateEnv) (input : UpdateToolInput)
    (issue : LinearIssue) (ls : List String) (sub : UpdateSubmission)
    (hIssue : env.issueResult = .ok issue)
    (hLabels : input.labels = some ls) (hne : ls ≠ [])
    (hres : ∀ name ∈ ls, ∃ l, findLinearLabel env.labels name = .ok l)
    (hSub : executeUpdateTool env input = .submitted sub) :
    ∃ ids, sub.labelIds = some ids ∧
      ids.toFinset =
        (issue.labels.map (·.id)).toFinset ∪
          (resolvedLabelIds env.labels ls).toFinset := by
  have hne' : ls.isEmpty = false := by
    cases ls with
    | nil => exact absurd rfl hne
    | cons a as => rfl
  simp only [executeUpdateTool, hIssue] at hSub
  split at hSub
  case isTrue hempty =>
    have hsubeq := (UpdateOutcome.submitted.injEq _ _).mp hSub
    subst hsubeq
    have hlab : (resolveLabels env.labels issue input.labels).1 =
        some (mergeLabels env.labels ls
          (dedupeKeepFirst (issue.labels.map (·.id)), [])).1 := by
      simp [resolveLabels, hLabels, hne']
    refine ⟨(mergeLabels env.labels ls
      (dedupeKeepFirst (issue.labels.map (·.id)), [])).1, ?_, ?_⟩
    · exact hlab
    · rw [(mergeLabels_resolved env.labels ls hres _ _).2,
        dedupeKeepFirst_toFinset]
  case isFalse hempty => cases hSub

theorem updateTool_labels_additive_witness :
    executeUpdateTool updateEnvOk updateInputBC =
      .submitted ⟨"iss1", none, none, none, some ["idA", "idB", "idC"],
        none, none, none⟩ ∧
    ∃ ids, (UpdateSubmission.mk "iss1" none none none
        (some ["idA", "idB", "idC"]) none none none).labelIds = some ids ∧
      ids.toFinset =
        (issueAB.labels.map (·.id)).toFinset ∪
          (resolvedLabelIds updateEnvOk.labels ["B", "C"]).toFinset := by
  have hsub : executeUpdateTool updateEnvOk updateInputBC =
      .submitted ⟨"iss1", none, none, none, some ["idA", "idB", "idC"],
        none, none, none⟩ := by decide
  refine ⟨hsub, ?_⟩
  refine updateTool_labels_additive updateEnvOk updateInputBC issueAB
    ["B", "C"] _ rfl rfl (by decide) ?_ hsub
  intro name hname
  rcases List.mem_cons.mp hname with h | h
  · subst h
    exact ⟨⟨"idB", "B"⟩, rfl⟩
  · rcases List.mem_singleton.mp h with rfl
    exact ⟨⟨"idC", "C"⟩, rfl⟩

/-! ### Resolution-failure aggregation lemmas -/

theorem mem_mergeLabels_errors (dir : Except String (List LinearLabel))
    (ls : List String) :
    ∀ ids errs : List String,
      (∀ e ∈ errs, e ∈ (mergeLabels dir ls (ids, errs)).2) ∧
      (∀ name ∈ ls, ∀ e, findLinearLabel dir name = .error e →
        e ∈ (mergeLabels dir ls (ids, errs)).2) := by
  induction ls with
  | nil =>
      intro ids errs
      exact ⟨fun e he => he, fun name hname => by simp at hname⟩
  | cons name rest ih =>
      intro ids errs
      cases hfind : findLinearLabel dir name with
      | ok l =>
          have hmerge : mergeLabels dir (name :: rest) (ids, errs) =
              mergeLabels dir rest (insertUnique ids l.id, errs) := by
            simp [mergeLabels, hfind]
          constructor
          · intro e he
            rw [hmerge]
            exact (ih (insertUnique ids l.id) errs).1 e he
          · intro n hn e he
            rw [hmerge]
            rcases List.mem_cons.mp hn with h | h
            · subst h
              rw [hfind] at he
              cases he
            · exact (ih (insertUnique ids l.id) errs).2 n h e he
      | error msg =>
          have hmerge : mergeLabels dir (name :: rest) (ids, errs) =
              mergeLabels dir rest (ids, errs ++ [msg]) := by
            simp [mergeLabels, hfind]
          constructor
          · intro e he
            rw [hmerge]
            exact (ih ids (errs ++ [msg])).1 e
              (List.mem_append.mpr (Or.inl he))
          · intro n hn e he
            rw [hmerge]
            rcases List.mem_cons.mp hn with h | h
            · subst h
              rw [hfind] at he
              cases he with
              | refl =>
                  exact (ih ids (errs ++ [msg])).1 msg
                    (List.mem_append.mpr (Or.inr (List.mem_singleton.mpr rfl)))
            · exact (ih ids (errs ++ [msg])).2 n h e he

/-- C5 (amended): after a successful issue lookup, all resolution is
performed before any mutation; whenever the recorded resolution-error list is
non-empty, the handler returns the single aggregated failure message and no
`issueUpdate` mutation is submitted, and whenever it is empty a mutation is
submitted.  Every failure of assignee, label, or project resolution — and
every status token not found in a successfully fetched workflow-status list —
lands in that recorded list.  (As amended: when the workflow-status list
fetch itself fails, the source records no error for the supplied status, so
the status change is silently dropped and the mutation proceeds; see the
counterexample.) -/
theorem updateTool_resolution_aggregates (env : UpdateEnv)
    (input : UpdateToolInput) (issue : LinearIssue)
    (hIssue : env.issueResult = .ok issue) :
    (updateResolutionErrors env issue input ≠ [] →
      executeUpdateTool env input = .resolutionFailure
        (resolutionFailureMsg (updateResolutionErrors env issue input)) ∧
      ∀ sub, executeUpdateTool env input ≠ .submitted sub) ∧
    (updateResolutionErrors env issue input = [] →
      ∃ sub, executeUpdateTool env input = .submitted sub) ∧
    (∀ a e, input.assignee = some a → findLinearUser env.users a = .error e →
      e ∈ updateResolutionErrors env issue input) ∧
    (∀ ls name e, input.labels = some ls → name ∈ ls →
      findLinearLabel env.labels name = .error e →
      e ∈ updateResolutionErrors env issue input) ∧
    (∀ p e, input.project = some p →
      findLinearProject env.projects p = .error e →
      e ∈ updateResolutionErrors env issue input) ∧
    (∀ s sts, input.status = some s → env.statuses = .ok sts →
      sts.find? (fun st => strToLower st.name ==
        strToLower (statusMapName s)) = none →
      ("Status not found: " ++ s) ∈ updateResolutionErrors env issue input) := by
  refine ⟨fun hne => ?_, fun hnil => ?_, ?_, ?_, ?_, ?_⟩
  · have hE : executeUpdateTool env input = .resolutionFailure
        (resolutionFailureMsg (updateResolutionErrors env issue input)) := by
      simp only [executeUpdateTool, hIssue]
      rw [if_neg (by simpa [List.isEmpty_iff] using hne)]
    refine ⟨hE, fun sub h => ?_⟩
    rw [hE] at h
    cases h
  · simp only [executeUpdateTool, hIssue]
    rw [if_pos (by simpa [List.isEmpty_iff] using hnil)]
    exact ⟨_, rfl⟩
  · intro a e ha he
    simp only [updateResolutionErrors, resolveAssignee, ha, he,
      List.mem_append, List.mem_singleton]
    tauto
  · intro ls name e hls hmem he
    have hne' : ls.isEmpty = false := by
      cases ls with
      | nil => simp at hmem
      | cons a as => rfl
    have hmm := (mem_mergeLabels_errors env.labels ls
      (dedupeKeepFirst (issue.labels.map (·.id))) []).2 name hmem e he
    simp only [updateResolutionErrors, resolveLabels, hls, hne',
      Bool.false_eq_true, if_neg, List.mem_append]
    tauto
  · intro p e hp he
    simp only [updateResolutionErrors, resolveProject, hp, he,
      List.mem_append, List.mem_singleton]
    tauto
  · intro s sts hs hsts hfind
    simp only [updateResolutionErrors, resolveStatus, hs, hsts, hfind,
      List.mem_append, List.mem_singleton]
    tauto

theorem updateTool_resolution_aggregates_witness :
    executeUpdateTool updateEnvOk resolutionFailInput = .resolutionFailure
      (resolutionFailureMsg
        (updateResolutionErrors updateEnvOk issueAB resolutionFailInput)) ∧
    "User not found: Zed" ∈
      updateResolutionErrors updateEnvOk issueAB resolutionFailInput ∧
    "Label not found: Zee" ∈
      updateResolutionErrors updateEnvOk issueAB resolutionFailInput := by
  have h := updateTool_resolution_aggregates updateEnvOk resolutionFailInput
    issueAB rfl
  refine ⟨(h.1 (by decide)).1, ?_, ?_⟩
  · exact h.2.2.1 "Zed" "User not found: Zed" rfl rfl
  · exact h.2.2.2.1 ["Zee"] "Zee" "Label not found: Zee" rfl
      (List.mem_singleton.mpr rfl) rfl

/-- C5 counterexample: with the workflow-status list fetch failing, an
invocation supplying `status := "done"` and a title change records no
resolution error for the status — the handler proceeds to submit the
mutation with `stateId` unset and only the title applied, even though the
supplied status was never resolved.  This refutes the claim that any
resolution failure prevents the mutation. -/
theorem updateTool_statusFetchFailure_counterexample :
    statusTitleInput.status = some "done" ∧
    statusFetchEnv.statuses = .error "Failed to fetch statuses" ∧
    updateResolutionErrors statusFetchEnv issueAB statusTitleInput = [] ∧
    executeUpdateTool statusFetchEnv statusTitleInput =
      .submitted ⟨"iss1", none, none, none, none, none,
        some "New title", none⟩ := by
  refine ⟨rfl, rfl, by decide, by decide⟩

/-! ### Orchestration-loop lemmas -/

theorem agentLoop_succ_toolUse (model : List MessageParam → ModelResponse)
    (exec : String → List (String × String) → String × Bool)
    (fuel : Nat) (msgs : List MessageParam) (r : ModelResponse)
    (h : r.stop_reason = "tool_use") :
    agentLoop model exec (fuel + 1) msgs r =
      ((agentLoop model exec fuel
          (msgs ++ [⟨"assistant", .ofBlocks r.content⟩,
            ⟨"user", .ofToolResults ((r.content.filterMap toolUseOf).map fun tu =>
              ToolResultBlock.mk tu.1 (exec tu.2.1 tu.2.2).1
                (!(exec tu.2.1 tu.2.2).2))⟩])
          (model (msgs ++ [⟨"assistant", .ofBlocks r.content⟩,
            ⟨"user", .ofToolResults ((r.content.filterMap toolUseOf).map fun tu =>
              ToolResultBlock.mk tu.1 (exec tu.2.1 tu.2.2).1
                (!(exec tu.2.1 tu.2.2).2))⟩]))).1,
       (agentLoop model exec fuel
          (msgs ++ [⟨"assistant", .ofBlocks r.content⟩,
            ⟨"user", .ofToolResults ((r.content.filterMap toolUseOf).map fun tu =>
              ToolResultBlock.mk tu.1 (exec tu.2.1 tu.2.2).1
                (!(exec tu.2.1 tu.2.2).2))⟩])
          (model (msgs ++ [⟨"assistant", .ofBlocks r.content⟩,
            ⟨"user", .ofToolResults ((r.content.filterMap toolUseOf).map fun tu =>
              ToolResultBlock.mk tu.1 (exec tu.2.1 tu.2.2).1
                (!(exec tu.2.1 tu.2.2).2))⟩]))).2.1 + 1,
       (agentLoop model exec fuel
          (msgs ++ [⟨"assistant", .ofBlocks r.content⟩,
            ⟨"user", .ofToolResults ((r.content.filterMap toolUseOf).map fun tu =>
              ToolResultBlock.mk tu.1 (exec tu.2.1 tu.2.2).1
                (!(exec tu.2.1 tu.2.2).2))⟩])
          (model (msgs ++ [⟨"assistant", .ofBlocks r.content⟩,
            ⟨"user", .ofToolResults ((r.content.filterMap toolUseOf).map fun tu =>
              ToolResultBlock.mk tu.1 (exec tu.2.1 tu.2.2).1
                (!(exec tu.2.1 tu.2.2).2))⟩]))).2.2 +
         (model (msgs ++ [⟨"assistant", .ofBlocks r.content⟩,
            ⟨"user", .ofToolResults ((r.content.filterMap toolUseOf).map fun tu =>
              ToolResultBlock.mk tu.1 (exec tu.2.1 tu.2.2).1
                (!(exec tu.2.1 tu.2.2).2))⟩])).usage.input_tokens +
         (model (msgs ++ [⟨"assistant", .ofBlocks r.content⟩,
            ⟨"user", .ofToolResults ((r.content.filterMap toolUseOf).map fun tu =>
              ToolResultBlock.mk tu.1 (exec tu.2.1 tu.2.2).1
                (!(exec tu.2.1 tu.2.2).2))⟩])).usage.output_tokens) := by
  simp only [agentLoop, if_pos h]

theorem agentLoop_toolUse_runs_full (model : List MessageParam → ModelResponse)
    (exec : String → List (String × String) → String × Bool)
    (htool : ∀ msgs, (model msgs).stop_reason = "tool_use") :
    ∀ (fuel : Nat) (msgs : List MessageParam) (r : ModelResponse),
      (∃ m0, r = model m0) →
      (agentLoop model exec fuel msgs r).2.1 = fuel ∧
      ∃ m1, (agentLoop model exec fuel msgs r).1 = model m1 := by
  intro fuel
  induction fuel with
  | zero =>
      intro msgs r hr
      exact ⟨rfl, hr⟩
  | succ fuel ih =>
      intro msgs r hr
      obtain ⟨m0, hm0⟩ := hr
      have hstop : r.stop_reason = "tool_use" := by rw [hm0]; exact htool m0
      rw [agentLoop_succ_toolUse model exec fuel msgs r hstop]
      obtain ⟨h1, m1, hm1⟩ := ih
        (msgs ++ [⟨"assistant", .ofBlocks r.content⟩,
          ⟨"user", .ofToolResults ((r.content.filterMap toolUseOf).map fun tu =>
            ToolResultBlock.mk tu.1 (exec tu.2.1 tu.2.2).1
              (!(exec tu.2.1 tu.2.2).2))⟩])
        (model (msgs ++ [⟨"assistant", .ofBlocks r.content⟩,
          ⟨"user", .ofToolResults ((r.content.filterMap toolUseOf).map fun tu =>
            ToolResultBlock.mk tu.1 (exec tu.2.1 tu.2.2).1
              (!(exec tu.2.1 tu.2.2).2))⟩]))
        ⟨_, rfl⟩
      exact ⟨by rw [h1], m1, hm1⟩

/-- C6 (amended): when every model response requests a tool invocation, the
orchestration loop of `processAgentRequest` executes exactly the configured
bound of 5 tool round-trips and then stops; the returned content is the first
text block of the final model response when one exists, and the fixed
fallback message otherwise — hence non-empty whenever the model never emits
an empty text block as the leading text block of a response.  (As amended: a
model response carrying an empty text block makes the returned string empty;
see the counterexample.) -/
theorem processAgent_iteration_bound (model : List MessageParam → ModelResponse)
    (exec : String → List (String × String) → String × Bool)
    (request : AgentRequestA)
    (hcontent : ¬ strTrim request.content = "")
    (htool : ∀ msgs, (model msgs).stop_reason = "tool_use") :
    (processAgentCore model exec request).2.1 = 5 ∧
    (∃ msgs, (processAgentCore model exec request).1 =
      match firstTextBlock (model msgs).content with
      | some t => t
      | none => NO_RESPONSE_FALLBACK) ∧
    ((∀ msgs t, firstTextBlock (model msgs).content = some t → t ≠ "") →
      (processAgentCore model exec request).1 ≠ "") := by
  obtain ⟨hiter, m1, hm1⟩ := agentLoop_toolUse_runs_full model exec htool 5
    (buildContextMessages request.context ++ [⟨"user", .ofText request.content⟩])
    (model (buildContextMessages request.context ++
      [⟨"user", .ofText request.content⟩]))
    ⟨_, rfl⟩
  have hcore : processAgentCore model exec request =
      match firstTextBlock (agentLoop model exec 5
        (buildContextMessages request.context ++
          [⟨"user", .ofText request.content⟩])
        (model (buildContextMessages request.context ++
          [⟨"user", .ofText request.content⟩]))).1.content with
      | some t => (t,
          (agentLoop model exec 5
            (buildContextMessages request.context ++
              [⟨"user", .ofText request.content⟩])
            (model (buildContextMessages request.context ++
              [⟨"user", .ofText request.content⟩]))).2.1,
          ((model (buildContextMessages request.context ++
              [⟨"user", .ofText request.content⟩])).usage.input_tokens +
            (model (buildContextMessages request.context ++
              [⟨"user", .ofText request.content⟩])).usage.output_tokens) +
          (agentLoop model exec 5
            (buildContextMessages request.context ++
              [⟨"user", .ofText request.content⟩])
            (model (buildContextMessages request.context ++
              [⟨"user", .ofText request.content⟩]))).2.2)
      | none => (NO_RESPONSE_FALLBACK,
          (agentLoop model exec 5
            (buildContextMessages request.context ++
              [⟨"user", .ofText request.content⟩])
            (model (buildContextMessages request.context ++
              [⟨"user", .ofText request.content⟩]))).2.1,
          ((model (buildContextMessages request.context ++
              [⟨"user", .ofText request.content⟩])).usage.input_tokens +
            (model (buildContextMessages request.context ++
              [⟨"user", .ofText request.content⟩])).usage.output_tokens) +
          (agentLoop model exec 5
            (buildContextMessages request.context ++
              [⟨"user", .ofText request.content⟩])
            (model (buildContextMessages request.context ++
              [⟨"user", .ofText request.content⟩]))).2.2) := by
    simp only [processAgentCore, if_neg hcontent]
  cases htb : firstTextBlock (agentLoop model exec 5
      (buildContextMessages request.context ++
        [⟨"user", .ofText request.content⟩])
      (model (buildContextMessages request.context ++
        [⟨"user", .ofText request.content⟩]))).1.content with
  | some t =>
      rw [hcore, htb]
      refine ⟨hiter, ⟨m1, ?_⟩, fun hnb => ?_⟩
      · rw [← hm1, htb]
      · have := hnb m1 t (by rw [← hm1, htb])
        simpa using this
  | none =>
      rw [hcore, htb]
      refine ⟨hiter, ⟨m1, ?_⟩, fun _ => ?_⟩
      · rw [← hm1, htb]
      · simp [NO_RESPONSE_FALLBACK]

theorem processAgent_iteration_bound_witness :
    (processAgentCore toolOnlyModel trivialExec helloRequest).2.1 = 5 ∧
    (processAgentCore toolOnlyModel trivialExec helloRequest).1 ≠ "" := by
  have h := processAgent_iteration_bound toolOnlyModel trivialExec helloRequest
    (by decide) (fun _ => rfl)
  refine ⟨h.1, h.2.2 ?_⟩
  intro msgs t ht
  simp only [toolOnlyModel, firstTextBlock] at ht
  injection ht with ht'
  subst ht'
  decide

/-- C6 counterexample: a model that requests a tool call on every response
but places an empty text block first makes `processAgentRequest` return the
empty string after the full 5 round-trips — `textBlock?.text ?? fallback`
keeps the empty text, so the returned response string is empty, refuting the
claim's "non-empty response string". -/
theorem processAgent_empty_text_counterexample :
    (emptyTextToolModel []).stop_reason = "tool_use" ∧
    (processAgentCore emptyTextToolModel trivialExec helloRequest).2.1 = 5 ∧
    (processAgentCore emptyTextToolModel trivialExec helloRequest).1 = "" := by
  refine ⟨rfl, by decide, by decide⟩

/-! ### Context-collector lemmas -/

theorem count_filter_pos {α : Type} [DecidableEq α] (p : α → Bool)
    (l : List α) (a : α) (h : p a = true) :
    (l.filter p).count a = l.count a := by
  induction l with
  | nil => rfl
  | cons x xs ih =>
      by_cases hx : p x = true
      · rw [List.filter_cons_of_pos hx, List.count_cons, List.count_cons, ih]
      · have hne : (x == a) = false := by
          simp only [beq_eq_false_iff_ne]
          exact fun he => hx (by rw [he]; exact h)
        rw [List.filter_cons_of_neg hx, List.count_cons, hne, ih]
        simp

theorem walkReplyChain_length_le (store : Nat → Option DMsg) :
    ∀ (fuel : Nat) (m : DMsg), (walkReplyChain store fuel m).length ≤ fuel := by
  intro fuel
  induction fuel with
  | zero => intro m; simp [walkReplyChain]
  | succ fuel ih =>
      intro m
      cases href : m.reference with
      | none => simp [walkReplyChain, href]
      | some mid =>
          cases hstore : store mid with
          | none => simp [walkReplyChain, href, hstore]
          | some ref =>
              have := ih ref
              simp only [walkReplyChain, href, hstore, List.length_append,
                List.length_singleton]
              omega

/-- C7 (amended): reply-chain context assembly walks at most 5 hops; the
reply chain precedes the channel transcript in the merged result; and, in
the `context-collector.ts` variant, a channel-transcript entry is excluded
exactly when its TIMESTAMP alone already appears in the reply chain — the
(author, timestamp) pair governs exclusion only in the second collector
variant, whose composite `author:timestamp` key realises the claim's rule.
The count equations state each exclusion/retention with multiplicity. -/
theorem collectReply_merge_spec :
    (∀ (store : Nat → Option DMsg) (m : DMsg),
        (walkReplyChain store 5 m).length ≤ 5) ∧
    (∀ chain channel : List CtxMsg,
        (mergeReplyTs chain channel).take chain.length = chain ∧
        (mergeReplyKey chain channel).take chain.length = chain) ∧
    (∀ (chain channel : List CtxMsg) (m : CtxMsg),
        (mergeReplyTs chain channel).count m =
          chain.count m + (if ∃ r ∈ chain, r.timestamp = m.timestamp then 0
            else channel.count m)) ∧
    (∀ (chain channel : List CtxMsg) (m : CtxMsg),
        (mergeReplyKey chain channel).count m =
          chain.count m + (if ∃ r ∈ chain, ctxKey r = ctxKey m then 0
            else channel.count m)) := by
  refine ⟨fun store m => walkReplyChain_length_le store 5 m,
    fun chain channel => ⟨?_, ?_⟩, ?_, ?_⟩
  · simp [mergeReplyTs, List.take_left]
  · simp [mergeReplyKey, List.take_left]
  · intro chain channel m
    simp only [mergeReplyTs, List.count_append]
    congr 1
    by_cases hex : ∃ r ∈ chain, r.timestamp = m.timestamp
    · rw [if_pos hex]
      apply List.count_eq_zero.mpr
      intro hmem
      rcases List.mem_filter.mp hmem with ⟨_, hp⟩
      obtain ⟨r, hr, hts⟩ := hex
      have hany : chain.any (fun r => r.timestamp == m.timestamp) = true :=
        List.any_eq_true.mpr ⟨r, hr, by simpa using hts⟩
      simp [hany] at hp
    · rw [if_neg hex]
      apply count_filter_pos
      have hany : chain.any (fun r => r.timestamp == m.timestamp) = false := by
        rw [List.any_eq_false]
        intro r hr
        simp only [beq_iff_eq]
        exact fun h => hex ⟨r, hr, h⟩
      simp [hany]
  · intro chain channel m
    simp only [mergeReplyKey, List.count_append]
    congr 1
    by_cases hex : ∃ r ∈ chain, ctxKey r = ctxKey m
    · rw [if_pos hex]
      apply List.count_eq_zero.mpr
      intro hmem
      rcases List.mem_filter.mp hmem with ⟨_, hp⟩
      obtain ⟨r, hr, hts⟩ := hex
      have hany : chain.any (fun r => ctxKey r == ctxKey m) = true :=
        List.any_eq_true.mpr ⟨r, hr, by simpa using hts⟩
      simp [hany] at hp
    · rw [if_neg hex]
      apply count_filter_pos
      have hany : chain.any (fun r => ctxKey r == ctxKey m) = false := by
        rw [List.any_eq_false]
        intro r hr
        simp only [beq_iff_eq]
        exact fun h => hex ⟨r, hr, h⟩
      simp [hany]

/-- C7 counterexample: alice's message (timestamp `t1`) forms the reply
chain; the channel transcript's only entry is carol's message, a different
author with the same timestamp `t1`.  Its (author, timestamp) pair appears
nowhere in the reply chain, yet the `context-collector.ts` merge — keyed on
timestamp alone — excludes it, refuting the claimed "if and only if its
(author, timestamp) pair already appears in the reply chain". -/
theorem collectReply_pair_dedup_counterexample :
    walkReplyChain replyStoreCE 5 replyMsgCE =
      [⟨"user", "hello", some "alice", some "t1"⟩] ∧
    (⟨"user", "unrelated", some "carol", some "t1"⟩ : CtxMsg) ∈ channelCE ∧
    (⟨"user", "unrelated", some "carol", some "t1"⟩ : CtxMsg).author ≠
      (⟨"user", "hello", some "alice", some "t1"⟩ : CtxMsg).author ∧
    collectReplyContextTs replyStoreCE replyMsgCE channelCE =
      [⟨"user", "hello", some "alice", some "t1"⟩] ∧
    collectReplyContextKey replyStoreCE replyMsgCE channelCE =
      [⟨"user", "hello", some "alice", some "t1"⟩,
       ⟨"user", "unrelated", some "carol", some "t1"⟩] := by
  refine ⟨by decide, by decide, by decide, by decide, by decide⟩

theorem collectReply_merge_spec_witness :
    (walkReplyChain replyStoreCE 5 replyMsgCE).length ≤ 5 ∧
    (mergeReplyTs [⟨"user", "hello", some "alice", some "t1"⟩]
        channelCE).take
        [(⟨"user", "hello", some "alice", some "t1"⟩ : CtxMsg)].length =
      [⟨"user", "hello", some "alice", some "t1"⟩] ∧
    (mergeReplyTs [⟨"user", "hello", some "alice", some "t1"⟩]
        channelCE).count ⟨"user", "unrelated", some "carol", some "t1"⟩ =
      [(⟨"user", "hello", some "alice", some "t1"⟩ : CtxMsg)].count
        ⟨"user", "unrelated", some "carol", some "t1"⟩ +
      (if ∃ r ∈ [(⟨"user", "hello", some "alice", some "t1"⟩ : CtxMsg)],
          r.timestamp =
            (⟨"user", "unrelated", some "carol", some "t1"⟩ : CtxMsg).timestamp
        then 0
        else channelCE.count ⟨"user", "unrelated", some "carol", some "t1"⟩) :=
  ⟨collectReply_merge_spec.1 replyStoreCE replyMsgCE,
   (collectReply_merge_spec.2.1 _ channelCE).1,
   collectReply_merge_spec.2.2.1 _ channelCE _⟩
